import Mathlib

/-!
Verification of the hashtag scanner/synthesizer (src/hashtag.ts).

A JavaScript string is modelled as a `List Nat` of UTF-16 code units, so that
lone surrogates are representable.  Index-based loops of the source become
recursion on the suffix of the list starting at the loop position: every read
the source performs is at `pos` or `pos + 1` (or `pos + 2` through
`isSurrogatePair(input, pos + 1)`), hence local to that suffix.
-/

namespace Hashtag

/-- UTF-16 encoding of a Lean string (no lone surrogates), used to write
concrete inputs readably.  Code points above U+FFFF become surrogate pairs. -/
def utf16 (s : String) : List Nat :=
  s.data.flatMap fun c =>
    if c.toNat < 0x10000 then [c.toNat]
    else [0xd800 + (c.toNat - 0x10000) / 0x400, 0xdc00 + (c.toNat - 0x10000) % 0x400]

/-- Source `isStrongTerminator`: code ≤ 0x20, or 0x7f ≤ code ≤ 0x9f. -/
def isStrongTerminator (c : Nat) : Bool :=
  c ≤ 0x20 || (0x7f ≤ c && c ≤ 0x9f)

/-- Source `isHighSurrogate`. -/
def isHighSurrogate (c : Nat) : Bool :=
  0xd800 ≤ c && c ≤ 0xdbff

/-- Source `isLowSurrogate`. -/
def isLowSurrogate (c : Nat) : Bool :=
  0xdc00 ≤ c && c ≤ 0xdfff

/-- Source `isSurrogatePair(input, pos)`, phrased on the suffix of the input
starting at `pos`: the first unit is a high surrogate and the second a low. -/
def isSurrogatePairL : List Nat → Bool
  | h :: l :: _ => isHighSurrogate h && isLowSurrogate l
  | _ => false

/-- Source `hasLoneSurrogate(input, pos)`, phrased on the suffix at `pos`. -/
def hasLoneSurrogateL : List Nat → Bool
  | [] => false
  | c :: rest =>
    if isHighSurrogate c then !isSurrogatePairL (c :: rest)
    else isLowSurrogate c

/-- Source `hasAnyLoneSurrogate`: walk the string, stepping over surrogate
pairs as one unit.  (Cases split on the list shape so that each step of the
walk is plain structural recursion; a one-element list can never hold a
surrogate pair.) -/
def hasAnyLoneSurrogate : List Nat → Bool
  | [] => false
  | [c] => if hasLoneSurrogateL [c] then true else hasAnyLoneSurrogate []
  | c :: d :: rest2 =>
    if hasLoneSurrogateL (c :: d :: rest2) then true
    else if isSurrogatePairL (c :: d :: rest2) then hasAnyLoneSurrogate rest2
    else hasAnyLoneSurrogate (d :: rest2)

/-- Source `isLineBreakChar`: LF or CR. -/
def isLineBreakChar (c : Nat) : Bool :=
  c = 0x0a || c = 0x0d

/-- Source `isHorizontalWhitespace`: space or tab. -/
def isHorizontalWhitespace (c : Nat) : Bool :=
  c = 0x20 || c = 0x09

/-- Source table `punctuationStrategyCode`: `some 0` = Trailing strategy,
`some 1` = None strategy, `none` = not punctuation. -/
def punctuationStrategyCode (c : Nat) : Option Nat :=
  if c = 0x2e || c = 0x2c || c = 0x21 || c = 0x3f || c = 0x3b || c = 0x3a ||
     c = 0xb7 || c = 0x964 || c = 0x965 || c = 0x60c || c = 0x61b ||
     c = 0x61f || c = 0x6d4 || c = 0x589 || c = 0x55b || c = 0x55c ||
     c = 0x55e || c = 0x1361 || c = 0x1362 || c = 0x1363 || c = 0x1364 ||
     c = 0x1365 || c = 0x10fb then some 0
  else if c = 0xf0d || c = 0xf0e || c = 0x3002 || c = 0x3001 || c = 0xff0c ||
          c = 0xff1f || c = 0xff01 || c = 0xff1b || c = 0xff1a || c = 0x30fb ||
          c = 0xff0e then some 1
  else none

/-- Source `unescapeHashtagText`: `\X` becomes `X`; a lone trailing `\` is
dropped. -/
def unescapeHashtagText : List Nat → List Nat
  | [] => []
  | [c] => if c = 0x5c then [] else [c]
  | c :: d :: rest2 =>
    if c = 0x5c then d :: unescapeHashtagText rest2
    else c :: unescapeHashtagText (d :: rest2)

/-- Loop body of source `extractUnwrappedTag`, phrased on the suffix starting
at the current position: returns how many code units the loop consumes before
it breaks (the source's final `pos - start`).  Cases split on the list shape
so every recursive call is structural; a suffix of fewer than two units can
never start with a surrogate pair, and the escape-pair branch looks one
further unit ahead for the pair width of the escaped character. -/
def unwrappedLen : List Nat → Nat
  | [] => 0
  | [c] =>
    if hasLoneSurrogateL [c] then 0
    else if isLineBreakChar c then 0
    else if c = 0x5c then 1
    else if isStrongTerminator c || c = 0x23 then 0
    else if (punctuationStrategyCode c).isSome then 0
    else 1 + unwrappedLen []
  | [c, d] =>
    if hasLoneSurrogateL [c, d] then 0
    else if isLineBreakChar c then 0
    else if c = 0x5c then
      if isLineBreakChar d || hasLoneSurrogateL [d] then 0
      else if isSurrogatePairL [d] then 3 + unwrappedLen []
      else 2 + unwrappedLen []
    else if isStrongTerminator c || c = 0x23 then 0
    else if (punctuationStrategyCode c).isSome then
      if punctuationStrategyCode c = some 1 then 0
      else if hasLoneSurrogateL [d] then 0
      else if isStrongTerminator d || (punctuationStrategyCode d).isSome then 0
      else 1 + unwrappedLen [d]
    else if isSurrogatePairL [c, d] then 2 + unwrappedLen []
    else 1 + unwrappedLen [d]
  | c :: d :: l :: rest3 =>
    if hasLoneSurrogateL (c :: d :: l :: rest3) then 0
    else if isLineBreakChar c then 0
    else if c = 0x5c then
      if isLineBreakChar d || hasLoneSurrogateL (d :: l :: rest3) then 0
      else if isSurrogatePairL (d :: l :: rest3) then 3 + unwrappedLen rest3
      else 2 + unwrappedLen (l :: rest3)
    else if isStrongTerminator c || c = 0x23 then 0
    else if (punctuationStrategyCode c).isSome then
      if punctuationStrategyCode c = some 1 then 0
      else if hasLoneSurrogateL (d :: l :: rest3) then 0
      else if isStrongTerminator d || (punctuationStrategyCode d).isSome then 0
      else 1 + unwrappedLen (d :: l :: rest3)
    else if isSurrogatePairL (c :: d :: l :: rest3) then 2 + unwrappedLen (l :: rest3)
    else 1 + unwrappedLen (d :: l :: rest3)

/-- Source `extractUnwrappedTag(input, start)`: succeeds iff the loop consumed
at least one unit (`pos > start`); `end` is the stop index, `rawText` the
consumed slice `input.slice(start, pos)`. -/
def extractUnwrappedTag (input : List Nat) (start : Nat) : Option (Nat × List Nat) :=
  if unwrappedLen (input.drop start) > 0 then
    some (start + unwrappedLen (input.drop start),
      (input.drop start).take (unwrappedLen (input.drop start)))
  else none

/-- Loop body of source `extractWrappedTag`, phrased on the suffix starting at
the content start: returns the offset of the closing unescaped `>` (`none` on a
lone surrogate or when the input ends first).  The `Bool` is the source's
`slashParity` (`true` = odd). -/
def wrappedScan : List Nat → Bool → Option Nat
  | [], _ => none
  | [c], parity =>
    if hasLoneSurrogateL [c] then none
    else if c = 0x5c then (wrappedScan [] (!parity)).map (· + 1)
    else if c = 0x3e then
      if parity then (wrappedScan [] false).map (· + 1)
      else some 0
    else (wrappedScan [] false).map (· + 1)
  | c :: d :: rest2, parity =>
    if hasLoneSurrogateL (c :: d :: rest2) then none
    else if c = 0x5c then (wrappedScan (d :: rest2) (!parity)).map (· + 1)
    else if c = 0x3e then
      if parity then (wrappedScan (d :: rest2) false).map (· + 1)
      else some 0
    else if isSurrogatePairL (c :: d :: rest2) then (wrappedScan rest2 false).map (· + 2)
    else (wrappedScan (d :: rest2) false).map (· + 1)

/-- Source `extractWrappedTag(input, hashIndex)`: requires `<` right after the
`#`; fails when there is no closing unescaped `>` or the content
(`input.slice(hashIndex + 2, gtIndex)`) is empty. -/
def extractWrappedTag (input : List Nat) (hashIndex : Nat) : Option (Nat × List Nat) :=
  if (input.drop (hashIndex + 1)).head? = some 0x3c then
    match wrappedScan (input.drop (hashIndex + 2)) false with
    | none => none
    | some j =>
      if j = 0 then none
      else some (hashIndex + 2 + j + 1, (input.drop (hashIndex + 2)).take j)
  else none

/-- Source `isUnescapedHash(input, hashIndex)`: the number of consecutive
backslashes immediately before `hashIndex` is even. -/
def isUnescapedHash (input : List Nat) (hashIndex : Nat) : Bool :=
  ((input.take hashIndex).reverse.takeWhile (fun c => c = 0x5c)).length % 2 = 0

inductive HType where
  | unwrapped
  | wrapped
deriving DecidableEq, Repr

structure ScanResult where
  type : HType
  start : Nat
  tagEnd : Nat
  rawText : List Nat
deriving DecidableEq, Repr

/-- Source `input.indexOf('#', i)` over the code-unit list. -/
def findHashAux : List Nat → Nat → Option Nat
  | [], _ => none
  | c :: rest, k => if c = 0x23 then some k else findHashAux rest (k + 1)

def findHashFrom (input : List Nat) (i : Nat) : Option Nat :=
  findHashAux (input.drop i) i

/-- One unfolding of the source generator loop `scanAllHashtags`, with the
fuel argument driving the recursion (the loop advances `i` by at least one
each iteration, so `input.length + 1 - fromIndex` units of fuel reproduce the
loop exactly; `scanAux_fuel` below shows the fuel choice is irrelevant once
sufficient). -/
def scanAux : Nat → List Nat → Nat → List ScanResult
  | 0, _, _ => []
  | fuel + 1, input, i =>
    if i < input.length then
      match findHashFrom input i with
      | none => []
      | some hIdx =>
        if hasLoneSurrogateL (input.drop hIdx) then scanAux fuel input (hIdx + 1)
        else if !isUnescapedHash input hIdx then scanAux fuel input (hIdx + 1)
        else if (input.drop (hIdx + 1)).head? = some 0x3c then
          match extractWrappedTag input hIdx with
          | some (e, raw) => ⟨.wrapped, hIdx, e, raw⟩ :: scanAux fuel input e
          | none => scanAux fuel input (hIdx + 2)
        else
          match extractUnwrappedTag input (hIdx + 1) with
          | some (e, raw) =>
            if (unescapeHashtagText raw).length > 0 &&
                !hasAnyLoneSurrogate (unescapeHashtagText raw) then
              ⟨.unwrapped, hIdx, e, raw⟩ :: scanAux fuel input e
            else scanAux fuel input (hIdx + 1)
          | none => scanAux fuel input (hIdx + 1)
    else []

/-- Source generator `scanAllHashtags(input, fromIndex)`, as the list of all
yielded results. -/
def scanAllFrom (input : List Nat) (i : Nat) : List ScanResult :=
  scanAux (input.length + 1) input i

/-- Loop of source `normalizeWrappedText`, with fuel driving the recursion
(each iteration consumes at least the leading unit, so `l.length` units of
fuel reproduce the loop; `normalizeAux_fuel` shows the choice is
irrelevant once sufficient). -/
def normalizeAux : Nat → List Nat → List Nat
  | 0, _ => []
  | _ + 1, [] => []
  | fuel + 1, c :: rest =>
    if c = 0x0d then
      if rest.head? = some 0x0a then
        0x20 :: normalizeAux fuel (rest.tail.dropWhile isHorizontalWhitespace)
      else
        0x20 :: normalizeAux fuel (rest.dropWhile isHorizontalWhitespace)
    else if c = 0x0a then
      0x20 :: normalizeAux fuel (rest.dropWhile isHorizontalWhitespace)
    else c :: normalizeAux fuel rest

/-- Source `normalizeWrappedText`: each line break (CR, LF, or CRLF) becomes
one space, and horizontal whitespace right after it is consumed. -/
def normalizeWrappedText (l : List Nat) : List Nat :=
  normalizeAux l.length l

structure HashtagMatch where
  type : HType
  start : Nat
  tagEnd : Nat
  raw : List Nat
  rawText : List Nat
  text : List Nat
deriving DecidableEq, Repr

/-- Source `toMatch`: rebuilds `raw` from the type and `rawText`
(`'#<' + rawText + '>'` wrapped, `'#' + rawText` unwrapped), rejects matches
whose unescaped content is empty or holds a lone surrogate, and normalizes
wrapped text. -/
def toMatch (item : ScanResult) : Option HashtagMatch :=
  if (unescapeHashtagText item.rawText).length = 0 ||
      hasAnyLoneSurrogate (unescapeHashtagText item.rawText) then none
  else
    some
      { type := item.type
        start := item.start
        tagEnd := item.tagEnd
        raw := if item.type = .wrapped then 0x23 :: 0x3c :: (item.rawText ++ [0x3e])
               else 0x23 :: item.rawText
        rawText := item.rawText
        text := if item.type = .wrapped
                then normalizeWrappedText (unescapeHashtagText item.rawText)
                else unescapeHashtagText item.rawText }

/-- Source `toExecArray`: the RegExp-compatible result of `exec`. -/
structure ExecArr where
  arr : List (List Nat)
  index : Nat
  input : List Nat
deriving DecidableEq, Repr

def typeStr : HType → List Nat
  | .unwrapped => utf16 "unwrapped"
  | .wrapped => utf16 "wrapped"

def toExecArray (m : HashtagMatch) (includeTypeGroup : Bool)
    (captureText : Bool) (input : List Nat) : ExecArr :=
  let payload := if captureText then m.text else m.rawText
  { arr := if includeTypeGroup then [m.raw, payload, typeStr m.type]
           else [m.raw, payload]
    index := m.start
    input := input }

/-- First scan item that passes the type filter and `toMatch` (the non-sticky
loop of source `execInternal`). -/
def firstMatch (tf : Option HType) : List ScanResult → Option HashtagMatch
  | [] => none
  | item :: rest =>
    if tf.isSome && tf ≠ some item.type then firstMatch tf rest
    else
      match toMatch item with
      | some m => some m
      | none => firstMatch tf rest

/-- Source `execInternal` of `hashtagPattern`, with the mutable `lastIndex`
made explicit: takes the cursor before the call and returns the result paired
with the cursor after `execInternal` itself (the callers `exec`/`execMatch`
then advance it to a successful match's end).  `lastIndex` is modelled as a
`Nat` since every value the source ever stores is `0`, a match end, or a
caller-supplied index already coerced to a non-negative integer. -/
def execInternal (tf : Option HType) (globalMode stickyMode : Bool)
    (input : List Nat) (lastIndex : Nat) : Option HashtagMatch × Nat :=
  if globalMode || stickyMode then
    if lastIndex > input.length then (none, 0)
    else if stickyMode then
      match scanAllFrom input lastIndex with
      | [] => (none, 0)
      | item :: _ =>
        if item.start ≠ lastIndex then (none, 0)
        else if tf.isSome && tf ≠ some item.type then (none, 0)
        else (toMatch item, lastIndex)
    else
      match firstMatch tf (scanAllFrom input lastIndex) with
      | some m => (some m, lastIndex)
      | none => (none, 0)
  else
    (firstMatch tf (scanAllFrom input 0), lastIndex)

/-- Source `execMatch`: like `execInternal` but advancing `lastIndex` to the
match end in global/sticky mode. -/
def execMatchG (tf : Option HType) (globalMode stickyMode : Bool)
    (input : List Nat) (lastIndex : Nat) : Option HashtagMatch × Nat :=
  match execInternal tf globalMode stickyMode input lastIndex with
  | (none, l) => (none, l)
  | (some m, l) =>
    (some m, if globalMode || stickyMode then m.tagEnd else l)

/-- Source `exec`: `execMatch` followed by `toExecArray`.  `includeTypeGroup`
is true exactly when the pattern's type option is `'any'` (`tf = none`), and
the default capture is `rawText`. -/
def execG (tf : Option HType) (globalMode stickyMode : Bool)
    (input : List Nat) (lastIndex : Nat) : Option ExecArr × Nat :=
  match execMatchG tf globalMode stickyMode input lastIndex with
  | (none, l) => (none, l)
  | (some m, l) => (some (toExecArray m tf.isNone false input), l)

/-- Source `findFirstHashtag` with default options: a fresh global `'any'`
pattern, cursor 0, one `execMatch`. -/
def findFirstHashtag (input : List Nat) : Option HashtagMatch :=
  (execMatchG none true false input 0).1

/-- Loop of source `findAllHashtags`: repeated `execMatch` on a fresh global
`'any'` pattern until it fails.  The cursor strictly advances at each
successful match (`findAllAux_fuel` shows the fuel choice is irrelevant once
sufficient). -/
def findAllAux : Nat → List Nat → Nat → List HashtagMatch
  | 0, _, _ => []
  | fuel + 1, input, lastIndex =>
    match execMatchG none true false input lastIndex with
    | (none, _) => []
    | (some m, l2) => m :: findAllAux fuel input l2

def findAllHashtags (input : List Nat) : List HashtagMatch :=
  findAllAux (input.length + 1) input 0

/-- JS `input.slice(a, b)` for `a ≤ b` over the code-unit list. -/
def slice (l : List Nat) (a b : Nat) : List Nat :=
  (l.drop a).take (b - a)

/-- Source `canBeUnwrapped`: no lone surrogate, no line break, no strong
terminator anywhere (walking surrogate pairs as one unit). -/
def canBeUnwrapped : List Nat → Bool
  | [] => true
  | [c] =>
    if hasLoneSurrogateL [c] then false
    else if isLineBreakChar c then false
    else if isStrongTerminator c then false
    else canBeUnwrapped []
  | c :: d :: rest2 =>
    if hasLoneSurrogateL (c :: d :: rest2) then false
    else if isLineBreakChar c then false
    else if isStrongTerminator c then false
    else if isSurrogatePairL (c :: d :: rest2) then canBeUnwrapped rest2
    else canBeUnwrapped (d :: rest2)

/-- Loop of source `escapeAsUnwrapped` for positions `i > 0` (the leading
`<` special case lives in `escUFirst`): `none` models the source's early
`return ''` on a lone surrogate or line break. -/
def escU : List Nat → Option (List Nat)
  | [] => some []
  | [c] =>
    if hasLoneSurrogateL [c] then none
    else if isLineBreakChar c then none
    else if c = 0x5c || c = 0x23 then (escU []).map (fun r => 0x5c :: c :: r)
    else (escU []).map (fun r => c :: r)
  | c :: d :: rest2 =>
    if hasLoneSurrogateL (c :: d :: rest2) then none
    else if isLineBreakChar c then none
    else if c = 0x5c || c = 0x23 then (escU (d :: rest2)).map (fun r => 0x5c :: c :: r)
    else if isSurrogatePairL (c :: d :: rest2) then (escU rest2).map (fun r => c :: d :: r)
    else (escU (d :: rest2)).map (fun r => c :: r)

/-- First iteration (`i = 0`) of source `escapeAsUnwrapped`: identical to
`escU` except that a leading `<` is additionally escaped. -/
def escUFirst : List Nat → Option (List Nat)
  | [] => some []
  | [c] =>
    if hasLoneSurrogateL [c] then none
    else if isLineBreakChar c then none
    else if c = 0x3c then (escU []).map (fun r => 0x5c :: 0x3c :: r)
    else if c = 0x5c || c = 0x23 then (escU []).map (fun r => 0x5c :: c :: r)
    else (escU []).map (fun r => c :: r)
  | c :: d :: rest2 =>
    if hasLoneSurrogateL (c :: d :: rest2) then none
    else if isLineBreakChar c then none
    else if c = 0x3c then (escU (d :: rest2)).map (fun r => 0x5c :: 0x3c :: r)
    else if c = 0x5c || c = 0x23 then (escU (d :: rest2)).map (fun r => 0x5c :: c :: r)
    else if isSurrogatePairL (c :: d :: rest2) then (escU rest2).map (fun r => c :: d :: r)
    else (escU (d :: rest2)).map (fun r => c :: r)

/-- Source `escapeAsUnwrapped`: escapes `\` and `#` everywhere and a leading
`<`; returns the empty string on a lone surrogate or line break. -/
def escapeAsUnwrapped (t : List Nat) : List Nat :=
  match escUFirst t with
  | some r => r
  | none => []

/-- Loop of source `escapeAsWrapped`: escapes `\`, `>` and `<` everywhere;
`none` models the source's early `return ''` on a lone surrogate. -/
def escW : List Nat → Option (List Nat)
  | [] => some []
  | [c] =>
    if hasLoneSurrogateL [c] then none
    else if c = 0x5c || c = 0x3e || c = 0x3c then (escW []).map (fun r => 0x5c :: c :: r)
    else (escW []).map (fun r => c :: r)
  | c :: d :: rest2 =>
    if hasLoneSurrogateL (c :: d :: rest2) then none
    else if c = 0x5c || c = 0x3e || c = 0x3c then
      (escW (d :: rest2)).map (fun r => 0x5c :: c :: r)
    else if isSurrogatePairL (c :: d :: rest2) then (escW rest2).map (fun r => c :: d :: r)
    else (escW (d :: rest2)).map (fun r => c :: r)

/-- Source `escapeAsWrapped`. -/
def escapeAsWrapped (t : List Nat) : List Nat :=
  match escW t with
  | some r => r
  | none => []

/-- Source `createHashtag`: empty result on empty text or lone surrogates;
otherwise `'#' + escapeAsUnwrapped(text)` when the text can be unwrapped,
else `'#<' + escapeAsWrapped(text) + '>'`. -/
def createHashtag (t : List Nat) : List Nat :=
  if t.length = 0 then []
  else if hasAnyLoneSurrogate t then []
  else if canBeUnwrapped t then
    if (escapeAsUnwrapped t).length > 0 then 0x23 :: escapeAsUnwrapped t else []
  else
    if (escapeAsWrapped t).length > 0 then 0x23 :: 0x3c :: (escapeAsWrapped t ++ [0x3e])
    else []

/-- Punctuation side condition for the round-trip law (not a source
function): no None-strategy punctuation anywhere, and every Trailing-strategy
punctuation code unit is followed by a non-punctuation code unit.  Texts
violating it lose their trailing punctuation to the extractor's lookahead
when synthesized in unwrapped form. -/
def punctSafe : List Nat → Bool
  | [] => true
  | [c] => (punctuationStrategyCode c).isNone
  | c :: d :: rest2 =>
    (match punctuationStrategyCode c with
     | none => true
     | some 0 => (punctuationStrategyCode d).isNone
     | some _ => false) && punctSafe (d :: rest2)

theorem findHashAux_some {l : List Nat} {k h : Nat}
    (hs : findHashAux l k = some h) :
    k ≤ h ∧ h - k < l.length ∧ l[h - k]? = some 0x23 := by
  induction l generalizing k with
  | nil => simp [findHashAux] at hs
  | cons c rest ih =>
    by_cases hc : c = 0x23
    · simp [findHashAux, hc] at hs
      subst hs
      simp [hc]
    · simp [findHashAux, hc] at hs
      obtain ⟨h1, h2, h3⟩ := ih hs
      refine ⟨by omega, by simp; omega, ?_⟩
      have : h - k = (h - (k + 1)) + 1 := by omega
      rw [this]
      simpa using h3

theorem findHashFrom_some {input : List Nat} {i h : Nat}
    (hs : findHashFrom input i = some h) :
    i ≤ h ∧ h < input.length ∧ input[h]? = some 0x23 := by
  obtain ⟨h1, h2, h3⟩ := findHashAux_some hs
  refine ⟨h1, ?_, ?_⟩
  · have := List.length_drop i input
    omega
  · rw [List.getElem?_drop] at h3
    rwa [Nat.add_sub_cancel' h1] at h3

theorem extractUnwrappedTag_some {input : List Nat} {start e : Nat} {raw : List Nat}
    (hs : extractUnwrappedTag input start = some (e, raw)) :
    start < e ∧ e = start + unwrappedLen (input.drop start) ∧
      raw = (input.drop start).take (e - start) := by
  unfold extractUnwrappedTag at hs
  split at hs
  · obtain ⟨he, hr⟩ := Prod.mk.injEq .. ▸ Option.some.injEq .. ▸ hs
    refine ⟨by omega, by omega, ?_⟩
    rw [← hr, ← he]
    simp
  · exact absurd hs (by simp)

theorem extractWrappedTag_some {input : List Nat} {hashIndex e : Nat} {raw : List Nat}
    (hs : extractWrappedTag input hashIndex = some (e, raw)) :
    hashIndex + 2 < e ∧ (input.drop (hashIndex + 1)).head? = some 0x3c ∧
      wrappedScan (input.drop (hashIndex + 2)) false = some (e - (hashIndex + 3)) ∧
      raw = (input.drop (hashIndex + 2)).take (e - (hashIndex + 3)) := by
  unfold extractWrappedTag at hs
  split at hs
  case isTrue hlt =>
    split at hs
    · exact absurd hs (by simp)
    case h_2 j hw =>
      split at hs
      · exact absurd hs (by simp)
      case isFalse hj =>
        obtain ⟨he, hr⟩ := Prod.mk.injEq .. ▸ Option.some.injEq .. ▸ hs
        have hej : j = e - (hashIndex + 3) := by omega
        subst hej
        exact ⟨by omega, hlt, hw, hr.symm⟩
  · exact absurd hs (by simp)

theorem scanAux_fuel {f1 f2 i : Nat} {input : List Nat}
    (h1 : input.length + 1 - i ≤ f1) (h2 : input.length + 1 - i ≤ f2) :
    scanAux f1 input i = scanAux f2 input i := by
  induction f1 generalizing f2 i with
  | zero =>
    have hi : ¬i < input.length := by omega
    cases f2 with
    | zero => rfl
    | succ g2 => simp [scanAux, hi]
  | succ g1 ih =>
    cases f2 with
    | zero =>
      have hi : ¬i < input.length := by omega
      simp [scanAux, hi]
    | succ g2 =>
      by_cases hi : i < input.length
      · simp only [scanAux, if_pos hi]
        rcases hfh : findHashFrom input i with _ | hIdx
        · rfl
        · have hb := findHashFrom_some hfh
          by_cases hls : hasLoneSurrogateL (input.drop hIdx)
          · simp only [if_pos hls]
            apply ih <;> omega
          · simp only [if_neg hls]
            by_cases hun : isUnescapedHash input hIdx
            · have hun2 : ¬((!isUnescapedHash input hIdx) = true) := by simp [hun]
              rw [if_neg hun2, if_neg hun2]
              by_cases hlt2 : (input.drop (hIdx + 1)).head? = some 0x3c
              · simp only [if_pos hlt2]
                rcases hw : extractWrappedTag input hIdx with _ | ⟨e, raw⟩
                · apply ih <;> omega
                · have hwb := extractWrappedTag_some hw
                  simp only [List.cons.injEq, true_and]
                  apply ih <;> omega
              · simp only [if_neg hlt2]
                rcases hu : extractUnwrappedTag input (hIdx + 1) with _ | ⟨e, raw⟩
                · apply ih <;> omega
                · have hub := extractUnwrappedTag_some hu
                  by_cases hok : (unescapeHashtagText raw).length > 0 &&
                      !hasAnyLoneSurrogate (unescapeHashtagText raw)
                  · simp only [if_pos hok, List.cons.injEq, true_and]
                    apply ih <;> omega
                  · simp only [if_neg hok]
                    apply ih <;> omega
            · have hun2 : (!isUnescapedHash input hIdx) = true := by simp [hun]
              rw [if_pos hun2, if_pos hun2]
              apply ih <;> omega
      · simp [scanAux, hi]

/-- The loop equation satisfied by `scanAllFrom`: exactly the source loop
body, restarting at the advanced index. -/
theorem scanAllFrom_eq (input : List Nat) (i : Nat) :
    scanAllFrom input i =
      if i < input.length then
        match findHashFrom input i with
        | none => []
        | some hIdx =>
          if hasLoneSurrogateL (input.drop hIdx) then scanAllFrom input (hIdx + 1)
          else if !isUnescapedHash input hIdx then scanAllFrom input (hIdx + 1)
          else if (input.drop (hIdx + 1)).head? = some 0x3c then
            match extractWrappedTag input hIdx with
            | some (e, raw) => ⟨.wrapped, hIdx, e, raw⟩ :: scanAllFrom input e
            | none => scanAllFrom input (hIdx + 2)
          else
            match extractUnwrappedTag input (hIdx + 1) with
            | some (e, raw) =>
              if (unescapeHashtagText raw).length > 0 &&
                  !hasAnyLoneSurrogate (unescapeHashtagText raw) then
                ⟨.unwrapped, hIdx, e, raw⟩ :: scanAllFrom input e
              else scanAllFrom input (hIdx + 1)
            | none => scanAllFrom input (hIdx + 1)
      else [] := by
  unfold scanAllFrom
  rw [show scanAux (input.length + 1) input i =
      scanAux (input.length + 2) input i from scanAux_fuel (by omega) (by omega)]
  simp only [scanAux]

theorem dropWhile_length_le (p : Nat → Bool) (l : List Nat) :
    (l.dropWhile p).length ≤ l.length := by
  induction l with
  | nil => simp [List.dropWhile]
  | cons c rest ih =>
    by_cases hc : p c
    · simp [List.dropWhile, hc]
      omega
    · simp [List.dropWhile, hc]

theorem normalizeAux_fuel {f1 f2 : Nat} {l : List Nat}
    (h1 : l.length ≤ f1) (h2 : l.length ≤ f2) :
    normalizeAux f1 l = normalizeAux f2 l := by
  induction f1 generalizing f2 l with
  | zero =>
    have : l = [] := by
      cases l
      · rfl
      · simp at h1
    subst this
    cases f2 <;> rfl
  | succ g1 ih =>
    cases l with
    | nil => cases f2 <;> rfl
    | cons c rest =>
      cases f2 with
      | zero => simp at h2
      | succ g2 =>
        have htl : rest.tail.length ≤ rest.length := by cases rest <;> simp
        have hd1 := dropWhile_length_le isHorizontalWhitespace rest.tail
        have hd2 := dropWhile_length_le isHorizontalWhitespace rest
        simp only [normalizeAux, List.length_cons] at h1 h2 ⊢
        by_cases hc : c = 0x0d
        · rw [if_pos hc, if_pos hc]
          by_cases hn : rest.head? = some 0x0a
          · rw [if_pos hn, if_pos hn]
            simp only [List.cons.injEq, true_and]
            apply ih <;> omega
          · rw [if_neg hn, if_neg hn]
            simp only [List.cons.injEq, true_and]
            apply ih <;> omega
        · rw [if_neg hc, if_neg hc]
          by_cases hn : c = 0x0a
          · rw [if_pos hn, if_pos hn]
            simp only [List.cons.injEq, true_and]
            apply ih <;> omega
          · rw [if_neg hn, if_neg hn]
            simp only [List.cons.injEq, true_and]
            apply ih <;> omega

/-- The loop equation satisfied by `normalizeWrappedText` on a nonempty
input: exactly the source loop body. -/
theorem normalizeWrappedText_cons (c : Nat) (rest : List Nat) :
    normalizeWrappedText (c :: rest) =
      if c = 0x0d then
        if rest.head? = some 0x0a then
          0x20 :: normalizeWrappedText (rest.tail.dropWhile isHorizontalWhitespace)
        else
          0x20 :: normalizeWrappedText (rest.dropWhile isHorizontalWhitespace)
      else if c = 0x0a then
        0x20 :: normalizeWrappedText (rest.dropWhile isHorizontalWhitespace)
      else c :: normalizeWrappedText rest := by
  have htl : rest.tail.length ≤ rest.length := by cases rest <;> simp
  have hd1 := dropWhile_length_le isHorizontalWhitespace rest.tail
  have hd2 := dropWhile_length_le isHorizontalWhitespace rest
  unfold normalizeWrappedText
  simp only [List.length_cons, normalizeAux]
  by_cases hc : c = 0x0d
  · rw [if_pos hc, if_pos hc]
    by_cases hn : rest.head? = some 0x0a
    · rw [if_pos hn, if_pos hn]
      simp only [List.cons.injEq, true_and]
      apply normalizeAux_fuel <;> omega
    · rw [if_neg hn, if_neg hn]
      simp only [List.cons.injEq, true_and]
      apply normalizeAux_fuel <;> omega
  · rw [if_neg hc, if_neg hc]
    by_cases hn : c = 0x0a
    · rw [if_pos hn, if_pos hn]
      simp only [List.cons.injEq, true_and]
      apply normalizeAux_fuel <;> omega
    · rw [if_neg hn, if_neg hn]

theorem normalizeWrappedText_ne_nil {l : List Nat} (h : l ≠ []) :
    normalizeWrappedText l ≠ [] := by
  cases l with
  | nil => exact absurd rfl h
  | cons c rest =>
    rw [normalizeWrappedText_cons]
    by_cases hc : c = 0x0d
    · rw [if_pos hc]
      by_cases hn : rest.head? = some 0x0a
      · rw [if_pos hn]; simp
      · rw [if_neg hn]; simp
    · rw [if_neg hc]
      by_cases hn : c = 0x0a
      · rw [if_pos hn]; simp
      · rw [if_neg hn]; simp

theorem execMatchG_some_end {tf : Option HType} {input : List Nat} {l : Nat}
    {m : HashtagMatch} {l2 : Nat}
    (hs : execMatchG tf true false input l = (some m, l2)) :
    l2 = m.tagEnd := by
  unfold execMatchG at hs
  rcases hint : execInternal tf true false input l with ⟨r, l1⟩
  rw [hint] at hs
  rcases r with _ | m1
  · simp at hs
  · simp at hs
    obtain ⟨hm, hl⟩ := hs
    rw [hm] at hl
    omega

theorem toMatch_some {item : ScanResult} {m : HashtagMatch}
    (h : toMatch item = some m) :
    m.type = item.type ∧ m.start = item.start ∧ m.tagEnd = item.tagEnd ∧
      m.rawText = item.rawText ∧
      m.raw = (if item.type = .wrapped then 0x23 :: 0x3c :: (item.rawText ++ [0x3e])
               else 0x23 :: item.rawText) ∧
      m.text = (if item.type = .wrapped
                then normalizeWrappedText (unescapeHashtagText item.rawText)
                else unescapeHashtagText item.rawText) ∧
      (unescapeHashtagText item.rawText).length ≠ 0 ∧
      hasAnyLoneSurrogate (unescapeHashtagText item.rawText) = false := by
  unfold toMatch at h
  split at h
  · exact absurd h (by simp)
  next hcond =>
    simp only [Option.some.injEq] at h
    subst h
    simp only [Bool.or_eq_true, decide_eq_true_eq, not_or] at hcond
    refine ⟨rfl, rfl, rfl, rfl, rfl, rfl, hcond.1, ?_⟩
    rcases hb : hasAnyLoneSurrogate (unescapeHashtagText item.rawText)
    · rfl
    · exact absurd hb hcond.2

theorem firstMatch_mem {tf : Option HType} {l : List ScanResult} {m : HashtagMatch}
    (h : firstMatch tf l = some m) :
    ∃ item ∈ l, toMatch item = some m := by
  induction l with
  | nil => simp [firstMatch] at h
  | cons item rest ih =>
    unfold firstMatch at h
    split at h
    · obtain ⟨it, hmem, htm⟩ := ih h
      exact ⟨it, List.mem_cons_of_mem _ hmem, htm⟩
    · split at h
      next m1 htm =>
        exact ⟨item, List.mem_cons_self _ _, htm.trans h⟩
      next htm =>
        obtain ⟨it, hmem, htm2⟩ := ih h
        exact ⟨it, List.mem_cons_of_mem _ hmem, htm2⟩

/-- Every item the scan yields: it starts at an unescaped `#` at or after the
scan origin, spans at least two units, and records exactly the result of the
corresponding extractor (including the scanner-level unescaped-content check
for unwrapped items). -/
theorem scanAux_mem {input : List Nat} {fuel i : Nat} {item : ScanResult}
    (h : item ∈ scanAux fuel input i) :
    i ≤ item.start ∧ item.start + 2 ≤ item.tagEnd ∧
      input[item.start]? = some 0x23 ∧
      ((item.type = HType.unwrapped ∧
          extractUnwrappedTag input (item.start + 1) = some (item.tagEnd, item.rawText) ∧
          (unescapeHashtagText item.rawText).length > 0 ∧
          hasAnyLoneSurrogate (unescapeHashtagText item.rawText) = false) ∨
        (item.type = HType.wrapped ∧
          extractWrappedTag input item.start = some (item.tagEnd, item.rawText))) := by
  induction fuel generalizing i with
  | zero => simp [scanAux] at h
  | succ g ih =>
    simp only [scanAux] at h
    split at h
    case isFalse => simp at h
    case isTrue hi =>
      split at h
      case h_1 => simp at h
      case h_2 hIdx hfh =>
        have hb := findHashFrom_some hfh
        split at h
        case isTrue =>
          have := ih h
          exact ⟨by omega, this.2⟩
        case isFalse =>
          split at h
          case isTrue =>
            have := ih h
            exact ⟨by omega, this.2⟩
          case isFalse =>
            split at h
            case isTrue hlt2 =>
              split at h
              case h_1 e raw hw =>
                rcases List.mem_cons.mp h with rfl | hmem
                · have hwb := extractWrappedTag_some hw
                  refine ⟨hb.1, ?_, hb.2.2, Or.inr ⟨rfl, hw⟩⟩
                  dsimp only
                  omega
                · have h2 := ih hmem
                  have hwb := extractWrappedTag_some hw
                  exact ⟨by omega, h2.2⟩
              case h_2 hw =>
                have := ih h
                exact ⟨by omega, this.2⟩
            case isFalse hlt2 =>
              split at h
              case h_1 e raw hu =>
                split at h
                case isTrue hok =>
                  rcases List.mem_cons.mp h with rfl | hmem
                  · have hub := extractUnwrappedTag_some hu
                    simp only [Bool.and_eq_true, decide_eq_true_eq,
                      Bool.not_eq_true'] at hok
                    refine ⟨hb.1, ?_, hb.2.2, Or.inl ⟨rfl, hu, hok.1, hok.2⟩⟩
                    dsimp only
                    omega
                  · have h2 := ih hmem
                    have hub := extractUnwrappedTag_some hu
                    exact ⟨by omega, h2.2⟩
                case isFalse =>
                  have := ih h
                  exact ⟨by omega, this.2⟩
              case h_2 hu =>
                have := ih h
                exact ⟨by omega, this.2⟩

theorem execInternal_global (tf : Option HType) (input : List Nat) (L : Nat) :
    execInternal tf true false input L =
      if L > input.length then (none, 0)
      else
        match firstMatch tf (scanAllFrom input L) with
        | some m => (some m, L)
        | none => (none, 0) := rfl

theorem execMatchG_global (tf : Option HType) (input : List Nat) (L : Nat) :
    execMatchG tf true false input L =
      if L > input.length then (none, 0)
      else
        match firstMatch tf (scanAllFrom input L) with
        | some m => (some m, m.tagEnd)
        | none => (none, 0) := by
  unfold execMatchG
  rw [execInternal_global]
  by_cases hL : L > input.length
  · rw [if_pos hL, if_pos hL]
  · rw [if_neg hL, if_neg hL]
    rcases firstMatch tf (scanAllFrom input L) with _ | m <;> rfl

theorem findAllAux_mem {input : List Nat} {fuel L : Nat} {m : HashtagMatch}
    (h : m ∈ findAllAux fuel input L) :
    ∃ L1, firstMatch none (scanAllFrom input L1) = some m := by
  induction fuel generalizing L with
  | zero => simp [findAllAux] at h
  | succ g ih =>
    simp only [findAllAux] at h
    split at h
    · simp at h
    next m1 L2 hexec =>
      rw [execMatchG_global] at hexec
      split at hexec
      · simp at hexec
      · rcases List.mem_cons.mp h with rfl | hmem
        · split at hexec
          next m2 hfmeq =>
            simp only [Prod.mk.injEq, Option.some.injEq] at hexec
            exact ⟨L, by rw [hfmeq, hexec.1]⟩
          · simp at hexec
        · exact ih hmem

/-- Every match produced by `findAllHashtags` comes from `toMatch` on some
scan item. -/
theorem findAllHashtags_mem {input : List Nat} {m : HashtagMatch}
    (h : m ∈ findAllHashtags input) :
    ∃ L1 item, item ∈ scanAllFrom input L1 ∧ toMatch item = some m := by
  obtain ⟨L1, hfm⟩ := findAllAux_mem h
  obtain ⟨item, hmem, htm⟩ := firstMatch_mem hfm
  exact ⟨L1, item, hmem, htm⟩

theorem findFirstHashtag_some {input : List Nat} {m : HashtagMatch}
    (h : findFirstHashtag input = some m) :
    ∃ item, item ∈ scanAllFrom input 0 ∧ toMatch item = some m := by
  unfold findFirstHashtag at h
  rw [execMatchG_global] at h
  split at h
  · simp at h
  · split at h
    next m2 hfmeq =>
      simp only at h
      exact h ▸ firstMatch_mem hfmeq
    · simp at h

theorem wrappedScan_gt : ∀ {s : List Nat} {p : Bool} {j : Nat},
    wrappedScan s p = some j → s[j]? = some 0x3e := by
  intro s p
  induction s, p using wrappedScan.induct <;> intro j h <;> simp_all [wrappedScan] <;>
    first
    | (subst h; simp)
    | (obtain ⟨a, ha, rfl⟩ := h
       rename_i ih
       simpa using ih ha)

theorem drop_eq_cons {l : List Nat} {i a : Nat} (h : l[i]? = some a) :
    l.drop i = a :: l.drop (i + 1) := by
  induction l generalizing i with
  | nil => simp at h
  | cons c rest ih =>
    cases i with
    | zero =>
      simp at h
      subst h
      simp
    | succ n =>
      simp only [List.getElem?_cons_succ] at h
      simp only [List.drop_succ_cons]
      exact ih h

/-- Raw reconstruction: for any scan item accepted by `toMatch`, the match's
`raw` is exactly the input slice between the reported offsets, and the span
is nonempty. -/
theorem scan_toMatch_raw {input : List Nat} {L : Nat} {item : ScanResult}
    {m : HashtagMatch}
    (hmem : item ∈ scanAllFrom input L) (htm : toMatch item = some m) :
    m.raw = slice input m.start m.tagEnd ∧ m.start < m.tagEnd := by
  obtain ⟨h1, h2, h3, h4⟩ := scanAux_mem hmem
  obtain ⟨ht, hst, hen, hrt, hraw, htx, hne, hnl⟩ := toMatch_some htm
  refine ⟨?_, by omega⟩
  rcases h4 with ⟨hty, hu, _, _⟩ | ⟨hty, hw⟩
  · have hub := extractUnwrappedTag_some hu
    rw [hraw, hst, hen, hty]
    simp only [reduceCtorEq, if_false]
    unfold slice
    rw [drop_eq_cons h3]
    have hsplit : item.tagEnd - item.start = (item.tagEnd - (item.start + 1)) + 1 := by
      omega
    rw [hsplit, List.take_succ_cons]
    rw [hub.2.2]
  · have hwb := extractWrappedTag_some hw
    have hgt := wrappedScan_gt hwb.2.2.1
    rw [hraw, hst, hen, hty]
    simp only [if_true, if_pos rfl]
    unfold slice
    rw [drop_eq_cons h3]
    have hsplit : item.tagEnd - item.start = (item.tagEnd - (item.start + 1)) + 1 := by
      omega
    rw [hsplit, List.take_succ_cons]
    have hdrop1 : input.drop (item.start + 1) = 0x3c :: input.drop (item.start + 2) := by
      have h60 := hwb.2.1
      rcases hd : input.drop (item.start + 1) with _ | ⟨x, xs⟩
      · rw [hd] at h60
        simp at h60
      · rw [hd] at h60
        simp only [List.head?_cons, Option.some.injEq] at h60
        subst h60
        have htl := List.tail_drop input (item.start + 1)
        rw [hd] at htl
        simp only [List.tail_cons] at htl
        rw [htl]
    rw [hdrop1]
    have hsplit2 : item.tagEnd - (item.start + 1) =
        ((item.tagEnd - (item.start + 3)) + 1) + 1 := by omega
    rw [hsplit2, List.take_succ_cons]
    rw [List.take_succ, hgt]
    rw [hwb.2.2.2]
    simp

/-- The scan resumes right past an escaped `#` (odd backslash parity). -/
theorem scan_resume_escaped {input : List Nat} {i hIdx : Nat}
    (hfh : findHashFrom input i = some hIdx)
    (hun : isUnescapedHash input hIdx = false) :
    scanAllFrom input i = scanAllFrom input (hIdx + 1) := by
  have hb := findHashFrom_some hfh
  rw [scanAllFrom_eq input i, if_pos (show i < input.length by omega)]
  simp only [hfh]
  by_cases hls : hasLoneSurrogateL (input.drop hIdx)
  · rw [if_pos hls]
  · rw [if_neg hls, if_pos (show (!isUnescapedHash input hIdx) = true by simp [hun])]

/-- The scan resumes at `hashIndex + 2` when wrapped extraction fails at a
`#<` trigger, with no unwrapped fallback. -/
theorem scan_resume_wrapped_fail {input : List Nat} {i hIdx : Nat}
    (hfh : findHashFrom input i = some hIdx)
    (hls : hasLoneSurrogateL (input.drop hIdx) = false)
    (hun : isUnescapedHash input hIdx = true)
    (hlt : (input.drop (hIdx + 1)).head? = some 0x3c)
    (hw : extractWrappedTag input hIdx = none) :
    scanAllFrom input i = scanAllFrom input (hIdx + 2) := by
  have hb := findHashFrom_some hfh
  rw [scanAllFrom_eq input i, if_pos (show i < input.length by omega)]
  simp only [hfh]
  rw [if_neg (show ¬hasLoneSurrogateL (input.drop hIdx) = true by simp [hls]),
    if_neg (show ¬(!isUnescapedHash input hIdx) = true by simp [hun]),
    if_pos hlt]
  simp only [hw]

theorem hasAnyLone_cons {c : Nat} {xs : List Nat}
    (hh : isHighSurrogate c = false) (hl2 : isLowSurrogate c = false) :
    hasAnyLoneSurrogate (c :: xs) = hasAnyLoneSurrogate xs := by
  cases xs with
  | nil => simp [hasAnyLoneSurrogate, hasLoneSurrogateL, hh, hl2]
  | cons d xs2 =>
    simp [hasAnyLoneSurrogate, hasLoneSurrogateL, isSurrogatePairL, hh, hl2]

theorem hasAnyLone_pair {h l : Nat} {xs : List Nat}
    (hp : isSurrogatePairL (h :: l :: xs) = true) :
    hasAnyLoneSurrogate (h :: l :: xs) = hasAnyLoneSurrogate xs := by
  simp only [isSurrogatePairL, Bool.and_eq_true] at hp
  simp [hasAnyLoneSurrogate, hasLoneSurrogateL, isSurrogatePairL, hp.1, hp.2]

/-- The wrapped-content loop aborts the whole extraction (returns `none`)
the moment the position it reached holds a lone surrogate. -/
theorem wrappedScan_lone_none {s : List Nat} {parity : Bool}
    (h : hasLoneSurrogateL s = true) : wrappedScan s parity = none := by
  match s with
  | [] => simp [hasLoneSurrogateL] at h
  | [c] => simp [wrappedScan, h]
  | c :: d :: rest2 => simp [wrappedScan, h]

/-- The unwrapped-content loop stops (consuming nothing further) the moment
the position it reached holds a lone surrogate: the tag is cut short just
before the surrogate rather than rejected. -/
theorem unwrappedLen_lone_zero {s : List Nat}
    (h : hasLoneSurrogateL s = true) : unwrappedLen s = 0 := by
  match s with
  | [] => simp [hasLoneSurrogateL] at h
  | [c] => simp [unwrappedLen, h]
  | [c, d] => simp [unwrappedLen, h]
  | c :: d :: l :: rest3 => simp [unwrappedLen, h]

/-- A Trailing-strategy punctuation code unit is a BMP non-surrogate that
triggers none of the guards preceding the punctuation branch of the
unwrapped-content loop. -/
theorem trailing_punct_facts {p : Nat} (hp : punctuationStrategyCode p = some 0) :
    isHighSurrogate p = false ∧ isLowSurrogate p = false ∧
      isLineBreakChar p = false ∧ ¬(p = 0x5c) ∧
      isStrongTerminator p = false ∧ ¬(p = 0x23) := by
  unfold punctuationStrategyCode at hp
  split at hp
  case isTrue hc =>
    simp only [Bool.or_eq_true, decide_eq_true_eq] at hc
    rcases hc with ((((((((((((((((((((((h|h)|h)|h)|h)|h)|h)|h)|h)|h)|h)|h)|h)|h)|h)|h)|h)|h)|h)|h)|h)|h)|h) <;> subst h <;> decide
  case isFalse =>
    split at hp <;> simp at hp

theorem hasLoneSurrogateL_cons_false {p : Nat} (h1 : isHighSurrogate p = false)
    (h2 : isLowSurrogate p = false) (xs : List Nat) :
    hasLoneSurrogateL (p :: xs) = false := by
  simp [hasLoneSurrogateL, h1, h2]

/-- The punctuation-lookahead step of the unwrapped-content loop at
end-of-input: a Trailing-strategy punctuation as the last character is
excluded (the loop stops before it). -/
theorem unwrappedLen_trailing_nil {p : Nat} (hp : punctuationStrategyCode p = some 0) :
    unwrappedLen [p] = 0 := by
  obtain ⟨f1, f2, f3, f4, f5, f6⟩ := trailing_punct_facts hp
  have hsome : (punctuationStrategyCode p).isSome = true := by simp [hp]
  simp [unwrappedLen, hasLoneSurrogateL, f1, f2, f3, f4, f5, f6, hsome]

/-- The punctuation-lookahead step of the unwrapped-content loop, isolated:
at a Trailing-strategy punctuation the loop stops (excluding it) exactly when
the next position holds a lone surrogate or the next unit is a strong
terminator or punctuation (of either strategy); otherwise the punctuation is
included and the walk continues at the next unit. -/
theorem unwrappedLen_trailing_cons {p : Nat} (hp : punctuationStrategyCode p = some 0)
    (d : Nat) (rest2 : List Nat) :
    unwrappedLen (p :: d :: rest2) =
      if hasLoneSurrogateL (d :: rest2) then 0
      else if isStrongTerminator d || (punctuationStrategyCode d).isSome then 0
      else 1 + unwrappedLen (d :: rest2) := by
  obtain ⟨f1, f2, f3, f4, f5, f6⟩ := trailing_punct_facts hp
  have hlp := hasLoneSurrogateL_cons_false f1 f2
  have hsome : (punctuationStrategyCode p).isSome = true := by simp [hp]
  have hnot1 : ¬punctuationStrategyCode p = some 1 := by simp [hp]
  cases rest2 with
  | nil =>
    simp only [unwrappedLen]
    rw [if_neg (by simp [hlp]), if_neg (by simp [f3]), if_neg f4,
      if_neg (by simp [f5, f6]), if_pos hsome, if_neg hnot1]
  | cons l rest3 =>
    simp only [unwrappedLen]
    rw [if_neg (by simp [hlp]), if_neg (by simp [f3]), if_neg f4,
      if_neg (by simp [f5, f6]), if_pos hsome, if_neg hnot1]

/-- Claim C2: punctuation lookahead on concrete inputs.
`findFirstHashtag "#v2.0"` keeps the `.` (a non-terminator follows);
`findFirstHashtag "#foo. bar"` drops the `.` (a space follows);
`findFirstHashtag "#foo!!"` drops the first `!` (another punctuation
follows). -/
theorem claim_C2 :
    findFirstHashtag (utf16 "#v2.0") =
      some ⟨.unwrapped, 0, 5, utf16 "#v2.0", utf16 "v2.0", utf16 "v2.0"⟩ ∧
    findFirstHashtag (utf16 "#foo. bar") =
      some ⟨.unwrapped, 0, 4, utf16 "#foo", utf16 "foo", utf16 "foo"⟩ ∧
    findFirstHashtag (utf16 "#foo!!") =
      some ⟨.unwrapped, 0, 4, utf16 "#foo", utf16 "foo", utf16 "foo"⟩ := by
  refine ⟨?_, ?_, ?_⟩ <;> decide

/-- Claim C3, counterexample: the claim predicts that during unwrapped
extraction a Trailing punctuation followed by an angle bracket terminates the
tag (so `"#foo.<x"` would give text `"foo"`), but the code's lookahead does
not test for angle brackets: the match text is `"foo.<x"`, not `"foo"`. -/
theorem claim_C3_cex :
    (findFirstHashtag (utf16 "#foo.<x")).map HashtagMatch.text =
      some (utf16 "foo.<x") ∧
    (findFirstHashtag (utf16 "#foo.<x")).map HashtagMatch.text ≠
      some (utf16 "foo") := by
  refine ⟨?_, ?_⟩ <;> decide

/-- Claim C3, amended: at an unescaped Trailing-strategy punctuation the
unwrapped extractor stops before the punctuation iff the next character is a
strong terminator, any punctuation, a lone surrogate, or there is no next
character; otherwise the punctuation is included and extraction continues.
Angle brackets are not in the lookahead set: `"#foo.<x"` parses through to
text `"foo.<x"`. -/
theorem claim_C3 :
    (∀ p : Nat, punctuationStrategyCode p = some 0 → unwrappedLen [p] = 0) ∧
    (∀ (p d : Nat) (rest2 : List Nat), punctuationStrategyCode p = some 0 →
      (unwrappedLen (p :: d :: rest2) = 0 ↔
        (hasLoneSurrogateL (d :: rest2) = true ∨ isStrongTerminator d = true ∨
          (punctuationStrategyCode d).isSome = true)) ∧
      (hasLoneSurrogateL (d :: rest2) = false → isStrongTerminator d = false →
        punctuationStrategyCode d = none →
        unwrappedLen (p :: d :: rest2) = 1 + unwrappedLen (d :: rest2))) ∧
    findFirstHashtag (utf16 "#foo.<x") =
      some ⟨.unwrapped, 0, 7, utf16 "#foo.<x", utf16 "foo.<x", utf16 "foo.<x"⟩ := by
  refine ⟨?_, ?_, by decide⟩
  · intro p hp
    exact unwrappedLen_trailing_nil hp
  · intro p d rest2 hp
    rw [unwrappedLen_trailing_cons hp]
    constructor
    · by_cases h1 : hasLoneSurrogateL (d :: rest2)
      · rw [if_pos h1]
        simp [h1]
      · rw [if_neg h1]
        by_cases h2 : isStrongTerminator d || (punctuationStrategyCode d).isSome
        · rw [if_pos h2]
          simp only [Bool.or_eq_true] at h2
          constructor
          · intro _
            exact Or.inr h2
          · intro _
            rfl
        · rw [if_neg h2]
          simp only [Bool.or_eq_true, not_or, Bool.not_eq_true] at h2
          constructor
          · omega
          · intro hor
            rcases hor with hor | hor | hor
            · exact absurd hor h1
            · exact absurd hor (by simp [h2.1])
            · exact absurd hor (by simp [h2.2])
    · intro h1 h2 h3
      rw [if_neg (by simp [h1]), if_neg (by simp [h2, h3])]

theorem claim_C3_witness :
    unwrappedLen [0x2e] = 0 ∧ unwrappedLen [0x2e, 0x78] = 1 + unwrappedLen [0x78] :=
  ⟨claim_C3.1 0x2e (by decide),
    (claim_C3.2.1 0x2e 0x78 [] (by decide)).2 (by decide) (by decide) (by decide)⟩

/-- Claim C4, counterexample: the claim predicts that a lone surrogate inside
would-be unwrapped content invalidates the candidate entirely
(`findFirstHashtag "#foo\uD800"` yields no match), but the code cuts the tag
short instead and emits the partial match `"foo"`. -/
theorem claim_C4_cex :
    findFirstHashtag [0x23, 0x66, 0x6f, 0x6f, 0xd800] ≠ none ∧
    (findFirstHashtag [0x23, 0x66, 0x6f, 0x6f, 0xd800]).map HashtagMatch.rawText =
      some [0x66, 0x6f, 0x6f] := by
  refine ⟨?_, ?_⟩ <;> decide

/-- Claim C4, amended: a lone surrogate aborts wrapped extraction entirely
(`wrappedScan` returns `none` the moment its position holds one), while in
unwrapped extraction it merely terminates the content before the surrogate,
producing a partial match — `findFirstHashtag "#foo\uD800"` is the unwrapped
match `"foo"`, not `none`.  In all cases no returned match's unescaped
content contains a lone surrogate. -/
theorem claim_C4 :
    (∀ (s : List Nat) (parity : Bool), hasLoneSurrogateL s = true →
        wrappedScan s parity = none) ∧
    (∀ s : List Nat, hasLoneSurrogateL s = true → unwrappedLen s = 0) ∧
    (∀ (input : List Nat) (m : HashtagMatch), m ∈ findAllHashtags input →
        hasAnyLoneSurrogate (unescapeHashtagText m.rawText) = false) ∧
    findFirstHashtag [0x23, 0x66, 0x6f, 0x6f, 0xd800] =
      some ⟨.unwrapped, 0, 4, [0x23, 0x66, 0x6f, 0x6f], [0x66, 0x6f, 0x6f],
        [0x66, 0x6f, 0x6f]⟩ := by
  refine ⟨?_, ?_, ?_, by decide⟩
  · intro s parity h
    exact wrappedScan_lone_none h
  · intro s h
    exact unwrappedLen_lone_zero h
  · intro input m hm
    obtain ⟨L1, item, hmem, htm⟩ := findAllHashtags_mem hm
    obtain ⟨_, _, _, hrt, _, _, _, hnl⟩ := toMatch_some htm
    rw [hrt]
    exact hnl

theorem claim_C4_witness :
    wrappedScan [0xd800] false = none ∧ unwrappedLen [0xdc00, 0x61] = 0 ∧
      hasAnyLoneSurrogate (unescapeHashtagText
        (⟨.unwrapped, 0, 2, utf16 "#a", utf16 "a", utf16 "a"⟩ :
          HashtagMatch).rawText) = false :=
  ⟨claim_C4.1 [0xd800] false (by decide), claim_C4.2.1 [0xdc00, 0x61] (by decide),
    claim_C4.2.2.1 (utf16 "#a") ⟨.unwrapped, 0, 2, utf16 "#a", utf16 "a", utf16 "a"⟩
      (by decide)⟩

/-- Claim C5: no wrapped-to-unwrapped fallback.  When an unescaped `#` is
immediately followed by `<` and wrapped extraction fails, the scan resumes at
`hashIndex + 2` without attempting unwrapped extraction at that `#`; and
`findFirstHashtag "#<foo bar"` is `none`. -/
theorem claim_C5 :
    (∀ (input : List Nat) (i hIdx : Nat),
        findHashFrom input i = some hIdx →
        hasLoneSurrogateL (input.drop hIdx) = false →
        isUnescapedHash input hIdx = true →
        (input.drop (hIdx + 1)).head? = some 0x3c →
        extractWrappedTag input hIdx = none →
        scanAllFrom input i = scanAllFrom input (hIdx + 2)) ∧
    findFirstHashtag (utf16 "#<foo bar") = none := by
  refine ⟨?_, by decide⟩
  intro input i hIdx hfh hls hun hlt hw
  exact scan_resume_wrapped_fail hfh hls hun hlt hw

theorem claim_C5_witness :
    scanAllFrom (utf16 "#<foo bar") 0 = scanAllFrom (utf16 "#<foo bar") 2 :=
  claim_C5.1 (utf16 "#<foo bar") 0 0 (by decide) (by decide) (by decide)
    (by decide) (by decide)

/-- Claim C6: escape parity of the trigger `#`.  `isUnescapedHash` holds iff
the number of consecutive backslashes immediately before the `#` is even; an
escaped `#` is skipped (the scan resumes one past it); `"\\#foo"` yields no
match while `"\\\\#foo"` yields the unwrapped match `"foo"`. -/
theorem claim_C6 :
    (∀ (input : List Nat) (hIdx : Nat),
        isUnescapedHash input hIdx = true ↔
          2 ∣ ((input.take hIdx).reverse.takeWhile (fun c => c = 0x5c)).length) ∧
    (∀ (input : List Nat) (i hIdx : Nat),
        findHashFrom input i = some hIdx →
        isUnescapedHash input hIdx = false →
        scanAllFrom input i = scanAllFrom input (hIdx + 1)) ∧
    findFirstHashtag (utf16 "\\#foo") = none ∧
    findFirstHashtag (utf16 "\\\\#foo") =
      some ⟨.unwrapped, 2, 6, utf16 "#foo", utf16 "foo", utf16 "foo"⟩ := by
  refine ⟨?_, ?_, by decide, by decide⟩
  · intro input hIdx
    unfold isUnescapedHash
    rw [Nat.dvd_iff_mod_eq_zero]
    simp
  · intro input i hIdx hfh hun
    exact scan_resume_escaped hfh hun

theorem claim_C6_witness :
    (isUnescapedHash (utf16 "\\\\#foo") 2 = true ↔
      2 ∣ (((utf16 "\\\\#foo").take 2).reverse.takeWhile (fun c => c = 0x5c)).length) ∧
    scanAllFrom (utf16 "\\#foo") 0 = scanAllFrom (utf16 "\\#foo") 2 :=
  ⟨claim_C6.1 (utf16 "\\\\#foo") 2,
    claim_C6.2.1 (utf16 "\\#foo") 0 1 (by decide) (by decide)⟩

/-- Claim C7: empty-content rejection.  Every match the library returns has
nonempty raw content, nonempty unescaped content, and nonempty final text;
`findFirstHashtag` rejects `"#<>"`, `"#"` and `"# foo"`. -/
theorem claim_C7 :
    (∀ (input : List Nat) (m : HashtagMatch), m ∈ findAllHashtags input →
        m.rawText ≠ [] ∧ unescapeHashtagText m.rawText ≠ [] ∧ m.text ≠ []) ∧
    findFirstHashtag (utf16 "#<>") = none ∧
    findFirstHashtag (utf16 "#") = none ∧
    findFirstHashtag (utf16 "# foo") = none := by
  refine ⟨?_, by decide, by decide, by decide⟩
  intro input m hm
  obtain ⟨L1, item, hmem, htm⟩ := findAllHashtags_mem hm
  obtain ⟨ht, _, _, hrt, _, htx, hne, _⟩ := toMatch_some htm
  have hu : unescapeHashtagText item.rawText ≠ [] := by
    intro hz
    rw [hz] at hne
    simp at hne
  refine ⟨?_, ?_, ?_⟩
  · rw [hrt]
    intro hz
    rw [hz] at hu
    exact hu rfl
  · rw [hrt]
    exact hu
  · rw [htx]
    by_cases hw : item.type = HType.wrapped
    · rw [if_pos hw]
      exact normalizeWrappedText_ne_nil hu
    · rw [if_neg hw]
      exact hu

theorem claim_C7_witness :
    (⟨.unwrapped, 0, 2, utf16 "#a", utf16 "a", utf16 "a"⟩ : HashtagMatch).rawText ≠ [] ∧
    unescapeHashtagText
      (⟨.unwrapped, 0, 2, utf16 "#a", utf16 "a", utf16 "a"⟩ : HashtagMatch).rawText ≠ [] ∧
    (⟨.unwrapped, 0, 2, utf16 "#a", utf16 "a", utf16 "a"⟩ : HashtagMatch).text ≠ [] :=
  claim_C7.1 (utf16 "#a") ⟨.unwrapped, 0, 2, utf16 "#a", utf16 "a", utf16 "a"⟩
    (by decide)

/-- Claim C8: multi-line wrapped normalization.  In wrapped text each
physical line break (LF, CR, CRLF) becomes exactly one space and horizontal
whitespace right after it is consumed; the first matches of `"#<a\nb>"` and
`"#<a\r\n  b>"` both have text `"a b"`. -/
theorem claim_C8 :
    (∀ rest : List Nat, normalizeWrappedText (0x0a :: rest) =
        0x20 :: normalizeWrappedText (rest.dropWhile isHorizontalWhitespace)) ∧
    (∀ rest : List Nat, normalizeWrappedText (0x0d :: 0x0a :: rest) =
        0x20 :: normalizeWrappedText (rest.dropWhile isHorizontalWhitespace)) ∧
    (∀ rest : List Nat, rest.head? ≠ some 0x0a →
        normalizeWrappedText (0x0d :: rest) =
        0x20 :: normalizeWrappedText (rest.dropWhile isHorizontalWhitespace)) ∧
    (findFirstHashtag (utf16 "#<a\nb>")).map HashtagMatch.text =
      some (utf16 "a b") ∧
    (findFirstHashtag (utf16 "#<a\r\n  b>")).map HashtagMatch.text =
      some (utf16 "a b") := by
  refine ⟨?_, ?_, ?_, by decide, by decide⟩
  · intro rest
    rw [normalizeWrappedText_cons]
    norm_num
  · intro rest
    rw [normalizeWrappedText_cons]
    norm_num
  · intro rest hne
    rw [normalizeWrappedText_cons]
    rw [if_pos rfl, if_neg hne]

theorem claim_C8_witness :
    normalizeWrappedText [0x0d, 0x62] =
      0x20 :: normalizeWrappedText ([0x62].dropWhile isHorizontalWhitespace) :=
  claim_C8.2.2.1 [0x62] (by decide)

/-- Claim C9: global-mode cursor exhaustion on `"text #one #two"`.  With
`global: true`, successive `exec` calls return the match at 5 (`"#one"`,
cursor advanced to 9), then the match at 10 (`"#two"`, cursor 14), then
`null` with the cursor reset to 0. -/
theorem claim_C9 :
    execG none true false (utf16 "text #one #two") 0 =
      (some ⟨[utf16 "#one", utf16 "one", utf16 "unwrapped"], 5,
        utf16 "text #one #two"⟩, 9) ∧
    execG none true false (utf16 "text #one #two") 9 =
      (some ⟨[utf16 "#two", utf16 "two", utf16 "unwrapped"], 10,
        utf16 "text #one #two"⟩, 14) ∧
    execG none true false (utf16 "text #one #two") 14 = (none, 0) := by
  refine ⟨?_, ?_, ?_⟩ <;> decide

/-- Claim C10: the `raw` field is exactly the matched source span.  For every
match returned by `findAllHashtags`, `findFirstHashtag` or `execMatch`,
`raw = input.slice(start, end)` with `start < end`, and `raw` is rebuilt as
`'#' + rawText` (unwrapped) or `'#<' + rawText + '>'` (wrapped). -/
theorem claim_C10 :
    ∀ input : List Nat,
      (∀ m ∈ findAllHashtags input,
          m.raw = slice input m.start m.tagEnd ∧ m.start < m.tagEnd ∧
          m.raw = (if m.type = .wrapped then 0x23 :: 0x3c :: (m.rawText ++ [0x3e])
                   else 0x23 :: m.rawText)) ∧
      (∀ m, findFirstHashtag input = some m →
          m.raw = slice input m.start m.tagEnd ∧ m.start < m.tagEnd) ∧
      (∀ L m L2, execMatchG none true false input L = (some m, L2) →
          m.raw = slice input m.start m.tagEnd ∧ m.start < m.tagEnd) := by
  intro input
  refine ⟨?_, ?_, ?_⟩
  · intro m hm
    obtain ⟨L1, item, hmem, htm⟩ := findAllHashtags_mem hm
    have hsl := scan_toMatch_raw hmem htm
    obtain ⟨ht, _, _, hrt, hraw, _, _, _⟩ := toMatch_some htm
    refine ⟨hsl.1, hsl.2, ?_⟩
    rw [hraw, ht, hrt]
  · intro m hm
    obtain ⟨item, hmem, htm⟩ := findFirstHashtag_some hm
    exact scan_toMatch_raw hmem htm
  · intro L m L2 hm
    rw [execMatchG_global] at hm
    split at hm
    · simp at hm
    · split at hm
      next m2 hfmeq =>
        simp only [Prod.mk.injEq, Option.some.injEq] at hm
        obtain ⟨item, hmem, htm⟩ := firstMatch_mem hfmeq
        exact hm.1 ▸ scan_toMatch_raw hmem htm
      · simp at hm

theorem claim_C10_witness :
    (⟨.unwrapped, 2, 4, utf16 "#a", utf16 "a", utf16 "a"⟩ : HashtagMatch).raw =
        slice (utf16 "x #a #<b c>") 2 4 ∧
      (2 : Nat) < 4 ∧
      (⟨.unwrapped, 2, 4, utf16 "#a", utf16 "a", utf16 "a"⟩ : HashtagMatch).raw =
        (if (⟨.unwrapped, 2, 4, utf16 "#a", utf16 "a", utf16 "a"⟩ : HashtagMatch).type
              = .wrapped then
          0x23 :: 0x3c ::
            ((⟨.unwrapped, 2, 4, utf16 "#a", utf16 "a", utf16 "a"⟩ :
              HashtagMatch).rawText ++ [0x3e])
         else 0x23 :: (⟨.unwrapped, 2, 4, utf16 "#a", utf16 "a", utf16 "a"⟩ :
              HashtagMatch).rawText) :=
  (claim_C10 (utf16 "x #a #<b c>")).1
    ⟨.unwrapped, 2, 4, utf16 "#a", utf16 "a", utf16 "a"⟩ (by decide)

theorem unescape_cons_ne {c : Nat} (hc : ¬c = 0x5c) (xs : List Nat) :
    unescapeHashtagText (c :: xs) = c :: unescapeHashtagText xs := by
  cases xs with
  | nil => simp [unescapeHashtagText, hc]
  | cons d rest2 => simp [unescapeHashtagText, hc]

theorem unescape_esc_pair (c : Nat) (xs : List Nat) :
    unescapeHashtagText (0x5c :: c :: xs) = c :: unescapeHashtagText xs := by
  simp [unescapeHashtagText]

theorem punct_none_of_high {c : Nat} (h : isHighSurrogate c = true) :
    punctuationStrategyCode c = none := by
  simp only [isHighSurrogate, Bool.and_eq_true, decide_eq_true_eq] at h
  unfold punctuationStrategyCode
  rw [if_neg, if_neg]
  · simp only [Bool.or_eq_true, decide_eq_true_eq, not_or]
    omega
  · simp only [Bool.or_eq_true, decide_eq_true_eq, not_or]
    omega

theorem high_ne_low_facts {c : Nat} (h : isHighSurrogate c = true) :
    ¬c = 0x5c ∧ ¬c = 0x23 ∧ ¬c = 0x3e ∧ ¬c = 0x3c ∧ isLineBreakChar c = false ∧
      isStrongTerminator c = false := by
  simp only [isHighSurrogate, Bool.and_eq_true, decide_eq_true_eq] at h
  refine ⟨by omega, by omega, by omega, by omega, ?_, ?_⟩
  · simp only [isLineBreakChar, Bool.or_eq_false_iff, decide_eq_false_iff_not]
    omega
  · simp only [isStrongTerminator, Bool.or_eq_false_iff, Bool.and_eq_false_iff,
      decide_eq_false_iff_not]
    omega

theorem not_surrogate_of_lone_false {c : Nat} {xs : List Nat}
    (h : hasLoneSurrogateL (c :: xs) = false)
    (hnp : isSurrogatePairL (c :: xs) = false) :
    isHighSurrogate c = false ∧ isLowSurrogate c = false := by
  simp only [hasLoneSurrogateL] at h
  by_cases hh : isHighSurrogate c = true
  · rw [if_pos hh] at h
    simp only [Bool.not_eq_false'] at h
    rw [h] at hnp
    simp at hnp
  · rw [if_neg hh] at h
    simp only [Bool.not_eq_true] at hh
    exact ⟨hh, h⟩

/-- Head facts of `canBeUnwrapped`: no lone surrogate, line break or strong
terminator at the front. -/
theorem canBeUnwrapped_head {x : Nat} {xs : List Nat}
    (h : canBeUnwrapped (x :: xs) = true) :
    hasLoneSurrogateL (x :: xs) = false ∧ isLineBreakChar x = false ∧
      isStrongTerminator x = false := by
  cases xs with
  | nil =>
    unfold canBeUnwrapped at h
    split at h
    · simp at h
    · split at h
      · simp at h
      · split at h
        · simp at h
        next h1 h2 h3 =>
          exact ⟨by simpa using h1, by simpa using h2, by simpa using h3⟩
  | cons d rest2 =>
    unfold canBeUnwrapped at h
    split at h
    · simp at h
    · split at h
      · simp at h
      · split at h
        · simp at h
        next h1 h2 h3 =>
          exact ⟨by simpa using h1, by simpa using h2, by simpa using h3⟩

theorem canBeUnwrapped_tail {x : Nat} {xs : List Nat}
    (h : canBeUnwrapped (x :: xs) = true)
    (hnp : isSurrogatePairL (x :: xs) = false) : canBeUnwrapped xs = true := by
  cases xs with
  | nil => simp [canBeUnwrapped]
  | cons d rest2 =>
    unfold canBeUnwrapped at h
    repeat' split at h
    all_goals
      first
      | exact h
      | simp at h
      | (rename_i hpp
         exact absurd hpp (by simpa using hnp))

theorem canBeUnwrapped_tail_pair {x l : Nat} {xs : List Nat}
    (h : canBeUnwrapped (x :: l :: xs) = true)
    (hp : isSurrogatePairL (x :: l :: xs) = true) : canBeUnwrapped xs = true := by
  unfold canBeUnwrapped at h
  repeat' split at h
  all_goals
    first
    | exact h
    | simp at h
    | (rename_i hnp
       exact absurd hp (by simpa using hnp))

theorem punctSafe_tail {x : Nat} {xs : List Nat}
    (h : punctSafe (x :: xs) = true) : punctSafe xs = true := by
  cases xs with
  | nil => simp [punctSafe]
  | cons d rest2 =>
    unfold punctSafe at h
    simp only [Bool.and_eq_true] at h
    exact h.2

theorem punctSafe_head_pair {x d : Nat} {rest2 : List Nat}
    (h : punctSafe (x :: d :: rest2) = true)
    (hx : punctuationStrategyCode x = some 0) :
    (punctuationStrategyCode d).isNone = true := by
  unfold punctSafe at h
  simp only [Bool.and_eq_true] at h
  have := h.1
  rw [hx] at this
  simpa using this

theorem punctSafe_no_none_strategy {x : Nat} {xs : List Nat}
    (h : punctSafe (x :: xs) = true) :
    ¬punctuationStrategyCode x = some 1 := by
  intro hx
  cases xs with
  | nil =>
    unfold punctSafe at h
    rw [hx] at h
    simp at h
  | cons d rest2 =>
    unfold punctSafe at h
    simp only [Bool.and_eq_true] at h
    have := h.1
    rw [hx] at this
    simp at this

theorem escU_unescape : ∀ {t E : List Nat},
    escU t = some E → unescapeHashtagText E = t := by
  intro t
  induction t using escU.induct <;> intro E h <;> simp only [escU] at h
  case case1 =>
    simp only [Option.some.injEq] at h
    subst h
    rfl
  case case2 c hl =>
    rw [if_pos hl] at h
    simp at h
  case case3 c hl hlb =>
    rw [if_neg hl, if_pos hlb] at h
    simp at h
  case case4 c hl hlb hesc _ =>
    rw [if_neg hl, if_neg hlb, if_pos hesc] at h
    simp only [Option.map_some', Option.some.injEq] at h
    subst h
    simp only [Bool.or_eq_true, decide_eq_true_eq] at hesc
    simp [unescapeHashtagText]
  case case5 c hl hlb hesc _ =>
    rw [if_neg hl, if_neg hlb, if_neg hesc] at h
    simp only [Option.map_some', Option.some.injEq] at h
    subst h
    simp only [Bool.or_eq_true, decide_eq_true_eq, not_or] at hesc
    simp [unescapeHashtagText, hesc.1]
  case case6 c d rest2 hl =>
    rw [if_pos hl] at h
    simp at h
  case case7 c d rest2 hl hlb =>
    rw [if_neg hl, if_pos hlb] at h
    simp at h
  case case8 c d rest2 hl hlb hesc ih =>
    rw [if_neg hl, if_neg hlb, if_pos hesc] at h
    rcases hx : escU (d :: rest2) with _ | E'
    · rw [hx] at h
      simp at h
    · rw [hx] at h
      simp only [Option.map_some', Option.some.injEq] at h
      subst h
      rw [unescape_esc_pair, ih hx]
  case case9 c d rest2 hl hlb hesc hsp ih =>
    rw [if_neg hl, if_neg hlb, if_neg hesc, if_pos hsp] at h
    rcases hx : escU rest2 with _ | E'
    · rw [hx] at h
      simp at h
    · rw [hx] at h
      simp only [Option.map_some', Option.some.injEq] at h
      subst h
      simp only [isSurrogatePairL, Bool.and_eq_true] at hsp
      have hfc := high_ne_low_facts hsp.1
      have hfd : ¬d = 0x5c := by
        simp only [isLowSurrogate, Bool.and_eq_true, decide_eq_true_eq] at hsp
        omega
      rw [unescape_cons_ne hfc.1, unescape_cons_ne hfd, ih hx]
  case case10 c d rest2 hl hlb hesc hsp ih =>
    rw [if_neg hl, if_neg hlb, if_neg hesc, if_neg hsp] at h
    rcases hx : escU (d :: rest2) with _ | E'
    · rw [hx] at h
      simp at h
    · rw [hx] at h
      simp only [Option.map_some', Option.some.injEq] at h
      subst h
      simp only [Bool.or_eq_true, decide_eq_true_eq, not_or] at hesc
      rw [unescape_cons_ne hesc.1, ih hx]

/-- The escaped form of a nonempty suffix is nonempty, starts with a unit the
unwrapped-content lookahead lets pass at a Trailing punctuation (no lone
surrogate, no strong terminator), and that unit is either the inserted `\` or
the first text unit itself. -/
theorem escU_head : ∀ {x : Nat} {xs E : List Nat},
    canBeUnwrapped (x :: xs) = true → escU (x :: xs) = some E →
    ∃ h0 E1, E = h0 :: E1 ∧ hasLoneSurrogateL (h0 :: E1) = false ∧
      isStrongTerminator h0 = false ∧ (h0 = 0x5c ∨ h0 = x) := by
  intro x xs E hcb h
  obtain ⟨hl, hlb, hst⟩ := canBeUnwrapped_head hcb
  cases xs with
  | nil =>
    simp only [escU] at h
    rw [if_neg (by simp [hl]), if_neg (by simp [hlb])] at h
    split at h
    next hesc =>
      simp only [Option.map_some', Option.some.injEq] at h
      subst h
      exact ⟨0x5c, [x], rfl, hasLoneSurrogateL_cons_false (by decide) (by decide) [x],
        by decide, Or.inl rfl⟩
    next hesc =>
      simp only [Option.map_some', Option.some.injEq] at h
      subst h
      have := not_surrogate_of_lone_false hl (by simp [isSurrogatePairL])
      exact ⟨x, [], rfl, hasLoneSurrogateL_cons_false this.1 this.2 [],
        hst, Or.inr rfl⟩
  | cons d rest2 =>
    simp only [escU] at h
    rw [if_neg (by simp [hl]), if_neg (by simp [hlb])] at h
    split at h
    next hesc =>
      rcases hx : escU (d :: rest2) with _ | E'
      · rw [hx] at h
        simp at h
      · rw [hx] at h
        simp only [Option.map_some', Option.some.injEq] at h
        subst h
        exact ⟨0x5c, x :: E', rfl,
          hasLoneSurrogateL_cons_false (by decide) (by decide) (x :: E'),
          by decide, Or.inl rfl⟩
    next hesc =>
      split at h
      next hsp =>
        rcases hx : escU rest2 with _ | E'
        · rw [hx] at h
          simp at h
        · rw [hx] at h
          simp only [Option.map_some', Option.some.injEq] at h
          subst h
          have hpair2 : isSurrogatePairL (x :: d :: E') = true := by
            simpa [isSurrogatePairL] using
              (by simpa [isSurrogatePairL] using hsp :
                isHighSurrogate x = true ∧ isLowSurrogate d = true)
          refine ⟨x, d :: E', rfl, ?_, hst, Or.inr rfl⟩
          simp only [isSurrogatePairL, Bool.and_eq_true] at hsp
          simp [hasLoneSurrogateL, hsp.1, hpair2]
      next hsp =>
        rcases hx : escU (d :: rest2) with _ | E'
        · rw [hx] at h
          simp at h
        · rw [hx] at h
          simp only [Option.map_some', Option.some.injEq] at h
          subst h
          have := not_surrogate_of_lone_false hl (by simpa using hsp)
          exact ⟨x, E', rfl, hasLoneSurrogateL_cons_false this.1 this.2 E',
            hst, Or.inr rfl⟩

theorem punct_code_cases {c pc : Nat} (h : punctuationStrategyCode c = some pc) :
    pc = 0 ∨ pc = 1 := by
  unfold punctuationStrategyCode at h
  split at h
  · simp at h
    omega
  · split at h
    · simp at h
      omega
    · simp at h

/-- One ordinary (non-escape, non-punctuation, non-surrogate) character step
of the unwrapped-content loop. -/
theorem unwrappedLen_ord_cons {c : Nat} (h1 : isHighSurrogate c = false)
    (h2 : isLowSurrogate c = false) (h3 : isLineBreakChar c = false)
    (h4 : ¬c = 0x5c) (h5 : isStrongTerminator c = false) (h6 : ¬c = 0x23)
    (h7 : (punctuationStrategyCode c).isSome = false) :
    ∀ xs : List Nat, unwrappedLen (c :: xs) = 1 + unwrappedLen xs := by
  intro xs
  have hln := hasLoneSurrogateL_cons_false h1 h2
  match xs with
  | [] => simp [unwrappedLen, hln, h3, h4, h5, h6, h7]
  | [d] => simp [unwrappedLen, hln, h3, h4, h5, h6, h7, isSurrogatePairL, h1]
  | d :: l :: rest3 =>
    simp [unwrappedLen, hln, h3, h4, h5, h6, h7, isSurrogatePairL, h1]

/-- One escape-pair step of the unwrapped-content loop over a BMP
non-surrogate escaped character. -/
theorem unwrappedLen_esc_cons {c : Nat} (h1 : isHighSurrogate c = false)
    (h2 : isLowSurrogate c = false) (h3 : isLineBreakChar c = false) :
    ∀ xs : List Nat, unwrappedLen (0x5c :: c :: xs) = 2 + unwrappedLen xs := by
  intro xs
  have hln := hasLoneSurrogateL_cons_false h1 h2
  have hln92 := @hasLoneSurrogateL_cons_false 0x5c (by decide) (by decide)
  match xs with
  | [] =>
    simp [unwrappedLen, hln92, hln, h3, isSurrogatePairL, h1,
      (by decide : isLineBreakChar 0x5c = false)]
  | d :: rest2 =>
    simp [unwrappedLen, hln92, hln, h3, isSurrogatePairL, h1,
      (by decide : isLineBreakChar 0x5c = false)]

/-- One surrogate-pair step of the unwrapped-content loop. -/
theorem unwrappedLen_pair_cons {h l : Nat} (hh : isHighSurrogate h = true)
    (hl : isLowSurrogate l = true) :
    ∀ xs : List Nat, unwrappedLen (h :: l :: xs) = 2 + unwrappedLen xs := by
  intro xs
  have hf := high_ne_low_facts hh
  have hpn : (punctuationStrategyCode h).isSome = false := by
    simp [punct_none_of_high hh]
  have hpair : ∀ ys : List Nat, isSurrogatePairL (h :: l :: ys) = true := by
    intro ys
    simp [isSurrogatePairL, hh, hl]
  have hlone : ∀ ys : List Nat, hasLoneSurrogateL (h :: l :: ys) = false := by
    intro ys
    simp [hasLoneSurrogateL, hh, hpair ys]
  match xs with
  | [] =>
    simp [unwrappedLen, hlone, hf.2.2.2.2.1, hf.1, hf.2.2.2.2.2, hf.2.1, hpn, hpair]
  | d :: rest2 =>
    simp [unwrappedLen, hlone, hf.2.2.2.2.1, hf.1, hf.2.2.2.2.2, hf.2.1, hpn, hpair]

/-- Core of the unwrapped round trip: on a text that can be unwrapped and is
punctuation-safe, the unwrapped-content loop consumes the escaped form
entirely. -/
theorem escU_consume : ∀ t : List Nat, canBeUnwrapped t = true →
    punctSafe t = true → ∀ E, escU t = some E → unwrappedLen E = E.length := by
  intro t
  induction t using escU.induct <;> intro hcb hps E h <;> simp only [escU] at h
  case case1 =>
    simp only [Option.some.injEq] at h
    subst h
    rfl
  case case2 c hl =>
    rw [if_pos hl] at h
    simp at h
  case case3 c hl hlb =>
    rw [if_neg hl, if_pos hlb] at h
    simp at h
  case case4 c hl hlb hesc _ =>
    rw [if_neg hl, if_neg hlb, if_pos hesc] at h
    simp only [Option.map_some', Option.some.injEq] at h
    subst h
    simp only [Bool.or_eq_true, decide_eq_true_eq] at hesc
    rcases hesc with rfl | rfl <;> decide
  case case5 c hl hlb hesc _ =>
    rw [if_neg hl, if_neg hlb, if_neg hesc] at h
    simp only [Option.map_some', Option.some.injEq] at h
    subst h
    simp only [Bool.or_eq_true, decide_eq_true_eq, not_or] at hesc
    obtain ⟨_, _, hst⟩ := canBeUnwrapped_head hcb
    have hpn : (punctuationStrategyCode c).isSome = false := by
      simp only [punctSafe] at hps
      simpa [Option.isNone_iff_eq_none] using hps
    simp only [Bool.not_eq_true] at hl
    simp [unwrappedLen, hl, hlb, hesc.1, hst, hesc.2, hpn]
  case case6 c d rest2 hl =>
    rw [if_pos hl] at h
    simp at h
  case case7 c d rest2 hl hlb =>
    rw [if_neg hl, if_pos hlb] at h
    simp at h
  case case8 c d rest2 hl hlb hesc ih =>
    rw [if_neg hl, if_neg hlb, if_pos hesc] at h
    rcases hx : escU (d :: rest2) with _ | E'
    · rw [hx] at h
      simp at h
    · rw [hx] at h
      simp only [Option.map_some', Option.some.injEq] at h
      subst h
      simp only [Bool.or_eq_true, decide_eq_true_eq] at hesc
      have hsp : isSurrogatePairL (c :: d :: rest2) = false := by
        rcases hesc with rfl | rfl <;> simp [isSurrogatePairL, isHighSurrogate]
      have hrec := ih (canBeUnwrapped_tail hcb hsp) (punctSafe_tail hps) _ hx
      rcases hesc with rfl | rfl
      · rw [@unwrappedLen_esc_cons 0x5c (by decide) (by decide) (by decide) E', hrec]
        simp only [List.length_cons]
        omega
      · rw [@unwrappedLen_esc_cons 0x23 (by decide) (by decide) (by decide) E', hrec]
        simp only [List.length_cons]
        omega
  case case9 c d rest2 hl hlb hesc hsp ih =>
    rw [if_neg hl, if_neg hlb, if_neg hesc, if_pos hsp] at h
    rcases hx : escU rest2 with _ | E'
    · rw [hx] at h
      simp at h
    · rw [hx] at h
      simp only [Option.map_some', Option.some.injEq] at h
      subst h
      have hpq : isHighSurrogate c = true ∧ isLowSurrogate d = true := by
        simpa [isSurrogatePairL] using hsp
      have hrec := ih (canBeUnwrapped_tail_pair hcb hsp)
        (punctSafe_tail (punctSafe_tail hps)) _ hx
      rw [unwrappedLen_pair_cons hpq.1 hpq.2 E', hrec]
      simp only [List.length_cons]
      omega
  case case10 c d rest2 hl hlb hesc hsp ih =>
    rw [if_neg hl, if_neg hlb, if_neg hesc, if_neg hsp] at h
    rcases hx : escU (d :: rest2) with _ | E'
    · rw [hx] at h
      simp at h
    · rw [hx] at h
      simp only [Option.map_some', Option.some.injEq] at h
      subst h
      simp only [Bool.or_eq_true, decide_eq_true_eq, not_or] at hesc
      simp only [Bool.not_eq_true] at hl hsp
      obtain ⟨hnh, hnl⟩ := not_surrogate_of_lone_false hl hsp
      obtain ⟨_, _, hst⟩ := canBeUnwrapped_head hcb
      have hcb2 := canBeUnwrapped_tail hcb hsp
      have hps2 := punctSafe_tail hps
      have hrec := ih hcb2 hps2 _ hx
      have hlbf : isLineBreakChar c = false := by
        simpa using hlb
      rcases htb : punctuationStrategyCode c with _ | pc
      · have hpns : (punctuationStrategyCode c).isSome = false := by
          simp [htb]
        rw [unwrappedLen_ord_cons hnh hnl hlbf hesc.1 hst hesc.2 hpns E', hrec]
        simp only [List.length_cons]
        omega
      · rcases punct_code_cases htb with rfl | rfl
        · obtain ⟨h0, E1, rfl, hlh, hsth, hor⟩ := escU_head hcb2 hx
          have htab0 : punctuationStrategyCode h0 = none := by
            rcases hor with rfl | rfl
            · decide
            · have := punctSafe_head_pair hps htb
              simpa [Option.isNone_iff_eq_none] using this
          rw [unwrappedLen_trailing_cons htb]
          rw [if_neg (show ¬(hasLoneSurrogateL (h0 :: E1) = true) by simp [hlh]),
            if_neg (show ¬((isStrongTerminator h0 ||
              (punctuationStrategyCode h0).isSome) = true) by simp [hsth, htab0])]
          rw [hrec]
          simp only [List.length_cons]
          omega
        · exact absurd htb (punctSafe_no_none_strategy hps)

theorem escU_isSome : ∀ t : List Nat, canBeUnwrapped t = true →
    (escU t).isSome = true := by
  intro t
  induction t using escU.induct <;> intro hcb
  case case1 => rfl
  case case2 c hl =>
    exact absurd (canBeUnwrapped_head hcb).1 (by simp [hl])
  case case3 c hl hlb =>
    exact absurd (canBeUnwrapped_head hcb).2.1 (by simp [hlb])
  case case4 c hl hlb hesc _ =>
    simp only [escU]
    rw [if_neg hl, if_neg hlb, if_pos hesc]
    simp [escU]
  case case5 c hl hlb hesc _ =>
    simp only [escU]
    rw [if_neg hl, if_neg hlb, if_neg hesc]
    simp [escU]
  case case6 c d rest2 hl =>
    exact absurd (canBeUnwrapped_head hcb).1 (by simp [hl])
  case case7 c d rest2 hl hlb =>
    exact absurd (canBeUnwrapped_head hcb).2.1 (by simp [hlb])
  case case8 c d rest2 hl hlb hesc ih =>
    simp only [escU]
    rw [if_neg hl, if_neg hlb, if_pos hesc]
    have hsp : isSurrogatePairL (c :: d :: rest2) = false := by
      simp only [Bool.or_eq_true, decide_eq_true_eq] at hesc
      rcases hesc with rfl | rfl <;> simp [isSurrogatePairL, isHighSurrogate]
    rw [Option.isSome_map']
    exact ih (canBeUnwrapped_tail hcb hsp)
  case case9 c d rest2 hl hlb hesc hsp ih =>
    simp only [escU]
    rw [if_neg hl, if_neg hlb, if_neg hesc, if_pos hsp]
    rw [Option.isSome_map']
    exact ih (canBeUnwrapped_tail_pair hcb hsp)
  case case10 c d rest2 hl hlb hesc hsp ih =>
    simp only [escU]
    rw [if_neg hl, if_neg hlb, if_neg hesc, if_neg hsp]
    rw [Option.isSome_map']
    exact ih (canBeUnwrapped_tail hcb (by simpa using hsp))

theorem escUFirst_eq_escU {x : Nat} (hx : ¬x = 0x3c) (xs : List Nat) :
    escUFirst (x :: xs) = escU (x :: xs) := by
  cases xs with
  | nil =>
    simp only [escUFirst, escU]
    rw [if_neg hx]
  | cons d rest2 =>
    simp only [escUFirst, escU]
    rw [if_neg hx]

/-- `escapeAsUnwrapped` as needed by the round trip: on a nonempty,
punctuation-safe text that can be unwrapped, the escaped form is nonempty,
does not start with `<`, unescapes back to the text, and is consumed entirely
by the unwrapped-content loop. -/
theorem escUFirst_spec {t E : List Nat} (hne : t ≠ [])
    (hcb : canBeUnwrapped t = true) (hps : punctSafe t = true)
    (h : escUFirst t = some E) :
    unwrappedLen E = E.length ∧ unescapeHashtagText E = t ∧ E ≠ [] ∧
      E.head? ≠ some 0x3c := by
  match t, hne with
  | x :: xs, _ =>
    by_cases hx3 : x = 0x3c
    · subst hx3
      obtain ⟨hl, hlb, hst⟩ := canBeUnwrapped_head hcb
      cases xs with
      | nil =>
        simp only [escUFirst] at h
        rw [if_neg (by simp [hl]), if_neg (by simp [hlb]), if_true] at h
        simp only [escU, Option.map_some', Option.some.injEq] at h
        subst h
        refine ⟨by decide, by decide, by decide, by decide⟩
      | cons d rest2 =>
        simp only [escUFirst] at h
        rw [if_neg (by simp [hl]), if_neg (by simp [hlb]), if_true] at h
        rcases hx : escU (d :: rest2) with _ | E''
        · rw [hx] at h
          simp at h
        · rw [hx] at h
          simp only [Option.map_some', Option.some.injEq] at h
          subst h
          have hsp : isSurrogatePairL (0x3c :: d :: rest2) = false := by
            simp [isSurrogatePairL, isHighSurrogate]
          have hcb2 := canBeUnwrapped_tail hcb hsp
          have hps2 := punctSafe_tail hps
          refine ⟨?_, ?_, by simp, by simp⟩
          · rw [@unwrappedLen_esc_cons 0x3c (by decide) (by decide) (by decide) E'',
              escU_consume _ hcb2 hps2 _ hx]
            simp only [List.length_cons]
            omega
          · rw [unescape_esc_pair, escU_unescape hx]
    · rw [escUFirst_eq_escU hx3] at h
      obtain ⟨h0, E1, rfl, hlh, hsth, hor⟩ := escU_head hcb h
      refine ⟨escU_consume _ hcb hps _ h, escU_unescape h, by simp, ?_⟩
      simp only [List.head?_cons, ne_eq, Option.some.injEq]
      rcases hor with rfl | rfl
      · decide
      · exact hx3

theorem escUFirst_isSome : ∀ t : List Nat, canBeUnwrapped t = true →
    (escUFirst t).isSome = true := by
  intro t hcb
  cases t with
  | nil => rfl
  | cons x xs =>
    by_cases hx : x = 0x3c
    · subst hx
      obtain ⟨hl, hlb, _⟩ := canBeUnwrapped_head hcb
      cases xs with
      | nil =>
        simp only [escUFirst]
        rw [if_neg (by simp [hl]), if_neg (by simp [hlb]), if_true]
        simp [escU]
      | cons d rest2 =>
        have hsp : isSurrogatePairL (0x3c :: d :: rest2) = false := by
          simp [isSurrogatePairL, (by decide : isHighSurrogate 0x3c = false)]
        have hcb2 := canBeUnwrapped_tail hcb hsp
        simp only [escUFirst]
        rw [if_neg (by simp [hl]), if_neg (by simp [hlb]), if_true,
          Option.isSome_map']
        exact escU_isSome _ hcb2
    · rw [escUFirst_eq_escU hx]
      exact escU_isSome _ hcb

theorem take_len_append : ∀ (l1 l2 : List Nat), (l1 ++ l2).take l1.length = l1
  | [], _ => rfl
  | c :: r, l2 => by
    simp only [List.cons_append, List.length_cons, List.take_succ_cons,
      take_len_append r l2]

/-- The wrapped-content loop accepts a bare `>` at once (`gtIndex` offset 0),
whatever follows it. -/
theorem wrappedScan_gt_zero : ∀ rest : List Nat,
    wrappedScan (0x3e :: rest) false = some 0
  | [] => by decide
  | d :: r => by
    have hlone : hasLoneSurrogateL (0x3e :: d :: r) = false :=
      @hasLoneSurrogateL_cons_false 0x3e (by decide) (by decide) (d :: r)
    simp only [wrappedScan]
    rw [if_neg (by simp [hlone])]
    simp

/-- A backslash step of the wrapped-content loop: consume one unit and flip
the parity. -/
theorem wrappedScan_bs (l : List Nat) (hne : l ≠ []) (p : Bool) :
    wrappedScan (0x5c :: l) p = (wrappedScan l (!p)).map (· + 1) := by
  match l, hne with
  | x :: xs, _ =>
    have hlone : hasLoneSurrogateL (0x5c :: x :: xs) = false :=
      @hasLoneSurrogateL_cons_false 0x5c (by decide) (by decide) (x :: xs)
    simp only [wrappedScan]
    rw [if_neg (by simp [hlone])]
    simp

/-- The unit following a backslash (odd parity) is always consumed by the
wrapped-content loop when it is one of the three characters `escapeAsWrapped`
escapes. -/
theorem wrappedScan_after_bs {c : Nat} (hc : c = 0x5c ∨ c = 0x3e ∨ c = 0x3c)
    (l : List Nat) (hne : l ≠ []) :
    wrappedScan (c :: l) true = (wrappedScan l false).map (· + 1) := by
  match l, hne with
  | x :: xs, _ =>
    have hlone : hasLoneSurrogateL (c :: x :: xs) = false := by
      rcases hc with rfl | rfl | rfl <;>
        exact @hasLoneSurrogateL_cons_false _ (by decide) (by decide) (x :: xs)
    simp only [wrappedScan]
    rw [if_neg (by simp [hlone])]
    rcases hc with rfl | rfl | rfl
    · simp
    · simp
    · have hsp : isSurrogatePairL (0x3c :: x :: xs) = false := by
        simp [isSurrogatePairL, (by decide : isHighSurrogate 0x3c = false)]
      simp [hsp]

/-- An ordinary (non-backslash, non-`>`, non-surrogate) step of the
wrapped-content loop consumes one unit. -/
theorem wrappedScan_ord {c : Nat} (h1 : isHighSurrogate c = false)
    (h2 : isLowSurrogate c = false) (h3 : ¬c = 0x5c) (h4 : ¬c = 0x3e)
    (l : List Nat) (hne : l ≠ []) (p : Bool) :
    wrappedScan (c :: l) p = (wrappedScan l false).map (· + 1) := by
  match l, hne with
  | x :: xs, _ =>
    have hlone := hasLoneSurrogateL_cons_false h1 h2 (x :: xs)
    have hsp : isSurrogatePairL (c :: x :: xs) = false := by
      simp [isSurrogatePairL, h1]
    simp only [wrappedScan]
    rw [if_neg (by simp [hlone]), if_neg h3, if_neg h4, if_neg (by simp [hsp])]

/-- A surrogate-pair step of the wrapped-content loop consumes two units. -/
theorem wrappedScan_pair {h l : Nat} (hh : isHighSurrogate h = true)
    (hl : isLowSurrogate l = true) (t : List Nat) (hne : t ≠ []) (p : Bool) :
    wrappedScan (h :: l :: t) p = (wrappedScan t false).map (· + 2) := by
  match t, hne with
  | x :: xs, _ =>
    have hsp : isSurrogatePairL (h :: l :: x :: xs) = true := by
      simp [isSurrogatePairL, hh, hl]
    have hlone : hasLoneSurrogateL (h :: l :: x :: xs) = false := by
      simp [hasLoneSurrogateL, hh, hsp]
    have hf := high_ne_low_facts hh
    simp only [wrappedScan]
    rw [if_neg (by simp [hlone]), if_neg hf.1, if_neg hf.2.2.1,
      if_pos (by simp [hsp])]

theorem escW_unescape : ∀ {t E : List Nat},
    escW t = some E → unescapeHashtagText E = t := by
  intro t
  induction t using escW.induct <;> intro E h <;> simp only [escW] at h
  case case1 =>
    simp only [Option.some.injEq] at h
    subst h
    rfl
  case case2 c hl =>
    rw [if_pos hl] at h
    simp at h
  case case3 c hl hesc _ =>
    rw [if_neg hl, if_pos hesc] at h
    simp only [escW, Option.map_some', Option.some.injEq] at h
    subst h
    simp [unescapeHashtagText]
  case case4 c hl hesc _ =>
    rw [if_neg hl, if_neg hesc] at h
    simp only [escW, Option.map_some', Option.some.injEq] at h
    subst h
    have hc : ¬c = 0x5c := by
      simp only [Bool.or_eq_true, decide_eq_true_eq, not_or] at hesc
      exact hesc.1.1
    simp [unescapeHashtagText, hc]
  case case5 c d rest2 hl =>
    rw [if_pos hl] at h
    simp at h
  case case6 c d rest2 hl hesc ih =>
    rw [if_neg hl, if_pos hesc] at h
    rcases hx : escW (d :: rest2) with _ | E'
    · rw [hx] at h
      simp at h
    · rw [hx] at h
      simp only [Option.map_some', Option.some.injEq] at h
      subst h
      rw [unescape_esc_pair, ih hx]
  case case7 c d rest2 hl hesc hsp ih =>
    rw [if_neg hl, if_neg hesc, if_pos hsp] at h
    rcases hx : escW rest2 with _ | E'
    · rw [hx] at h
      simp at h
    · rw [hx] at h
      simp only [Option.map_some', Option.some.injEq] at h
      subst h
      simp only [isSurrogatePairL, Bool.and_eq_true] at hsp
      have hfc := high_ne_low_facts hsp.1
      have hfd : ¬d = 0x5c := by
        simp only [isLowSurrogate, Bool.and_eq_true, decide_eq_true_eq] at hsp
        omega
      rw [unescape_cons_ne hfc.1, unescape_cons_ne hfd, ih hx]
  case case8 c d rest2 hl hesc hsp ih =>
    rw [if_neg hl, if_neg hesc, if_neg hsp] at h
    rcases hx : escW (d :: rest2) with _ | E'
    · rw [hx] at h
      simp at h
    · rw [hx] at h
      simp only [Option.map_some', Option.some.injEq] at h
      subst h
      have hc : ¬c = 0x5c := by
        simp only [Bool.or_eq_true, decide_eq_true_eq, not_or] at hesc
        exact hesc.1.1
      rw [unescape_cons_ne hc, ih hx]

theorem escW_isSome : ∀ t : List Nat, hasAnyLoneSurrogate t = false →
    (escW t).isSome = true := by
  intro t
  induction t using escW.induct <;> intro hok
  case case1 => rfl
  case case2 c hl =>
    simp [hasAnyLoneSurrogate, hl] at hok
  case case3 c hl hesc _ =>
    simp only [escW]
    rw [if_neg hl, if_pos hesc]
    simp [escW]
  case case4 c hl hesc _ =>
    simp only [escW]
    rw [if_neg hl, if_neg hesc]
    simp [escW]
  case case5 c d rest2 hl =>
    simp [hasAnyLoneSurrogate, hl] at hok
  case case6 c d rest2 hl hesc ih =>
    simp only [escW]
    rw [if_neg hl, if_pos hesc, Option.isSome_map']
    have hc : c = 0x5c ∨ c = 0x3e ∨ c = 0x3c := by
        simp only [Bool.or_eq_true, decide_eq_true_eq] at hesc
        tauto
    have hok2 : hasAnyLoneSurrogate (d :: rest2) = false := by
      rcases hc with rfl | rfl | rfl <;>
        rwa [hasAnyLone_cons (by decide) (by decide)] at hok
    exact ih hok2
  case case7 c d rest2 hl hesc hsp ih =>
    simp only [escW]
    rw [if_neg hl, if_neg hesc, if_pos hsp, Option.isSome_map']
    exact ih (by rwa [hasAnyLone_pair hsp] at hok)
  case case8 c d rest2 hl hesc hsp ih =>
    simp only [escW]
    rw [if_neg hl, if_neg hesc, if_neg hsp, Option.isSome_map']
    have hsf := not_surrogate_of_lone_false (by simpa using hl) (by simpa using hsp)
    exact ih (by rwa [hasAnyLone_cons hsf.1 hsf.2] at hok)

/-- `escapeAsWrapped`'s output, followed by the closing `>`, is consumed
exactly by the wrapped-content loop: the scan reports the closing `>` at
offset `E.length`. -/
theorem escW_consume : ∀ t : List Nat, ∀ E : List Nat, escW t = some E →
    ∀ rest : List Nat, wrappedScan (E ++ 0x3e :: rest) false = some E.length := by
  intro t
  induction t using escW.induct <;> intro E h rest <;> simp only [escW] at h
  case case1 =>
    simp only [Option.some.injEq] at h
    subst h
    simpa using wrappedScan_gt_zero rest
  case case2 c hl =>
    rw [if_pos hl] at h
    simp at h
  case case3 c hl hesc _ =>
    rw [if_neg hl, if_pos hesc] at h
    simp only [escW, Option.map_some', Option.some.injEq] at h
    subst h
    have hc : c = 0x5c ∨ c = 0x3e ∨ c = 0x3c := by
        simp only [Bool.or_eq_true, decide_eq_true_eq] at hesc
        tauto
    simp only [List.cons_append, List.nil_append]
    rw [wrappedScan_bs (c :: 0x3e :: rest) (by simp) false,
      show (!false) = true from rfl,
      wrappedScan_after_bs hc (0x3e :: rest) (by simp),
      wrappedScan_gt_zero rest]
    rfl
  case case4 c hl hesc _ =>
    rw [if_neg hl, if_neg hesc] at h
    simp only [escW, Option.map_some', Option.some.injEq] at h
    subst h
    have hsf := not_surrogate_of_lone_false (by simpa using hl)
      (by simp [isSurrogatePairL])
    have hnc : ¬(c = 0x5c ∨ c = 0x3e ∨ c = 0x3c) := by
        simp only [Bool.or_eq_true, decide_eq_true_eq] at hesc
        tauto
    simp only [List.cons_append, List.nil_append]
    rw [wrappedScan_ord hsf.1 hsf.2 (by tauto) (by tauto) (0x3e :: rest)
      (by simp) false, wrappedScan_gt_zero rest]
    rfl
  case case5 c d rest2 hl =>
    rw [if_pos hl] at h
    simp at h
  case case6 c d rest2 hl hesc ih =>
    rw [if_neg hl, if_pos hesc] at h
    rcases hx : escW (d :: rest2) with _ | E'
    · rw [hx] at h
      simp at h
    · rw [hx] at h
      simp only [Option.map_some', Option.some.injEq] at h
      subst h
      have hc : c = 0x5c ∨ c = 0x3e ∨ c = 0x3c := by
        simp only [Bool.or_eq_true, decide_eq_true_eq] at hesc
        tauto
      simp only [List.cons_append]
      rw [wrappedScan_bs (c :: (E' ++ 0x3e :: rest)) (by simp) false,
        show (!false) = true from rfl,
        wrappedScan_after_bs hc (E' ++ 0x3e :: rest) (by simp),
        ih E' hx rest]
      simp only [Option.map_some', Option.some.injEq, List.length_cons]
  case case7 c d rest2 hl hesc hsp ih =>
    rw [if_neg hl, if_neg hesc, if_pos hsp] at h
    rcases hx : escW rest2 with _ | E'
    · rw [hx] at h
      simp at h
    · rw [hx] at h
      simp only [Option.map_some', Option.some.injEq] at h
      subst h
      simp only [isSurrogatePairL, Bool.and_eq_true] at hsp
      simp only [List.cons_append]
      rw [wrappedScan_pair hsp.1 hsp.2 (E' ++ 0x3e :: rest) (by simp) false,
        ih E' hx rest]
      simp only [Option.map_some', Option.some.injEq, List.length_cons]
  case case8 c d rest2 hl hesc hsp ih =>
    rw [if_neg hl, if_neg hesc, if_neg hsp] at h
    rcases hx : escW (d :: rest2) with _ | E'
    · rw [hx] at h
      simp at h
    · rw [hx] at h
      simp only [Option.map_some', Option.some.injEq] at h
      subst h
      have hsf := not_surrogate_of_lone_false (by simpa using hl)
        (by simpa using hsp)
      have hnc : ¬(c = 0x5c ∨ c = 0x3e ∨ c = 0x3c) := by
        simp only [Bool.or_eq_true, decide_eq_true_eq] at hesc
        tauto
      simp only [List.cons_append]
      rw [wrappedScan_ord hsf.1 hsf.2 (by tauto) (by tauto)
        (E' ++ 0x3e :: rest) (by simp) false, ih E' hx rest]
      simp only [Option.map_some', Option.some.injEq, List.length_cons]

/-- Scanning `'#' + E` where the unwrapped-content loop consumes all of `E`
(and the unescaped content is acceptable) yields exactly the unwrapped match
covering the whole string. -/
theorem scan_first_unwrapped {E : List Nat} (hne : E ≠ [])
    (hhd : E.head? ≠ some 0x3c)
    (hlen : unwrappedLen E = E.length)
    (hok : (unescapeHashtagText E).length > 0)
    (hls : hasAnyLoneSurrogate (unescapeHashtagText E) = false) :
    findFirstHashtag (0x23 :: E) = some
      { type := .unwrapped, start := 0, tagEnd := 1 + E.length,
        raw := 0x23 :: E, rawText := E,
        text := unescapeHashtagText E } := by
  have hlpos : 0 < E.length := List.length_pos.mpr hne
  have hfh : findHashFrom (0x23 :: E) 0 = some 0 := rfl
  have hlone : hasLoneSurrogateL (0x23 :: E) = false :=
    @hasLoneSurrogateL_cons_false 0x23 (by decide) (by decide) E
  have hun : isUnescapedHash (0x23 :: E) 0 = true := rfl
  have hhd2 : ¬((0x23 :: E).drop (0 + 1)).head? = some 0x3c := hhd
  have hextract : extractUnwrappedTag (0x23 :: E) (0 + 1) =
      some (1 + E.length, E) := by
    unfold extractUnwrappedTag
    have hdrop : (0x23 :: E).drop (0 + 1) = E := rfl
    rw [hdrop, hlen, if_pos hlpos, List.take_length]
  have htm : toMatch (⟨.unwrapped, 0, 1 + E.length, E⟩ : ScanResult) = some
      { type := .unwrapped, start := 0, tagEnd := 1 + E.length,
        raw := 0x23 :: E, rawText := E,
        text := unescapeHashtagText E } := by
    have hcond : ¬((unescapeHashtagText E).length = 0 ||
        hasAnyLoneSurrogate (unescapeHashtagText E)) = true := by
      rw [hls, Bool.or_false]
      simp only [decide_eq_true_eq]
      omega
    unfold toMatch
    rw [if_neg hcond]
    rfl
  have hscan : scanAllFrom (0x23 :: E) 0 =
      (⟨.unwrapped, 0, 1 + E.length, E⟩ : ScanResult) ::
        scanAllFrom (0x23 :: E) (1 + E.length) := by
    rw [scanAllFrom_eq (0x23 :: E) 0, if_pos (show 0 < (0x23 :: E).length by simp)]
    simp only [hfh]
    rw [if_neg (show ¬hasLoneSurrogateL ((0x23 :: E).drop 0) = true by
        simp [hlone]),
      if_neg (show ¬(!isUnescapedHash (0x23 :: E) 0) = true by simp [hun]),
      if_neg hhd2]
    simp only [hextract]
    rw [if_pos (show ((unescapeHashtagText E).length > 0 &&
        !hasAnyLoneSurrogate (unescapeHashtagText E)) = true by
      simp only [Bool.and_eq_true, decide_eq_true_eq, Bool.not_eq_true']
      refine ⟨?_, hls⟩
      simpa using hok)]
  unfold findFirstHashtag
  rw [execMatchG_global, if_neg (show ¬0 > (0x23 :: E).length by simp), hscan]
  simp only [firstMatch]
  rw [if_neg (show ¬((none : Option HType).isSome &&
      decide ((none : Option HType) ≠ some HType.unwrapped)) = true by simp)]
  simp only [htm]

/-- Scanning `'#<' + E + '>'` where the wrapped-content loop reports the
closing `>` right after `E` (and the unescaped content is acceptable) yields
exactly the wrapped match covering the whole string. -/
theorem scan_first_wrapped {E : List Nat} (hne : E ≠ [])
    (hws : wrappedScan (E ++ [0x3e]) false = some E.length)
    (hok : (unescapeHashtagText E).length > 0)
    (hls : hasAnyLoneSurrogate (unescapeHashtagText E) = false) :
    findFirstHashtag (0x23 :: 0x3c :: (E ++ [0x3e])) = some
      { type := .wrapped, start := 0, tagEnd := 0 + 2 + E.length + 1,
        raw := 0x23 :: 0x3c :: (E ++ [0x3e]), rawText := E,
        text := normalizeWrappedText (unescapeHashtagText E) } := by
  have hlpos : 0 < E.length := List.length_pos.mpr hne
  have hfh : findHashFrom (0x23 :: 0x3c :: (E ++ [0x3e])) 0 = some 0 := rfl
  have hlone : hasLoneSurrogateL (0x23 :: 0x3c :: (E ++ [0x3e])) = false :=
    @hasLoneSurrogateL_cons_false 0x23 (by decide) (by decide) _
  have hun : isUnescapedHash (0x23 :: 0x3c :: (E ++ [0x3e])) 0 = true := rfl
  have hhd : ((0x23 :: 0x3c :: (E ++ [0x3e])).drop (0 + 1)).head? =
      some 0x3c := rfl
  have hextract : extractWrappedTag (0x23 :: 0x3c :: (E ++ [0x3e])) 0 =
      some (0 + 2 + E.length + 1, E) := by
    unfold extractWrappedTag
    rw [if_pos hhd]
    have hdrop : (0x23 :: 0x3c :: (E ++ [0x3e])).drop (0 + 2) = E ++ [0x3e] := rfl
    simp only [hdrop, hws]
    rw [if_neg (show ¬E.length = 0 by omega)]
    rw [take_len_append E [0x3e]]
  have htm : toMatch (⟨.wrapped, 0, 0 + 2 + E.length + 1, E⟩ : ScanResult) = some
      { type := .wrapped, start := 0, tagEnd := 0 + 2 + E.length + 1,
        raw := 0x23 :: 0x3c :: (E ++ [0x3e]), rawText := E,
        text := normalizeWrappedText (unescapeHashtagText E) } := by
    have hcond : ¬((unescapeHashtagText E).length = 0 ||
        hasAnyLoneSurrogate (unescapeHashtagText E)) = true := by
      rw [hls, Bool.or_false]
      simp only [decide_eq_true_eq]
      omega
    unfold toMatch
    rw [if_neg hcond]
    rfl
  have hscan : scanAllFrom (0x23 :: 0x3c :: (E ++ [0x3e])) 0 =
      (⟨.wrapped, 0, 0 + 2 + E.length + 1, E⟩ : ScanResult) ::
        scanAllFrom (0x23 :: 0x3c :: (E ++ [0x3e])) (0 + 2 + E.length + 1) := by
    rw [scanAllFrom_eq (0x23 :: 0x3c :: (E ++ [0x3e])) 0,
      if_pos (show 0 < (0x23 :: 0x3c :: (E ++ [0x3e])).length by simp)]
    simp only [hfh]
    rw [if_neg (show ¬hasLoneSurrogateL ((0x23 :: 0x3c :: (E ++ [0x3e])).drop 0) =
        true by simp [hlone]),
      if_neg (show ¬(!isUnescapedHash (0x23 :: 0x3c :: (E ++ [0x3e])) 0) = true by
        simp [hun]),
      if_pos hhd]
    simp only [hextract]
  unfold findFirstHashtag
  rw [execMatchG_global,
    if_neg (show ¬0 > (0x23 :: 0x3c :: (E ++ [0x3e])).length by simp), hscan]
  simp only [firstMatch]
  rw [if_neg (show ¬((none : Option HType).isSome &&
      decide ((none : Option HType) ≠ some HType.wrapped)) = true by simp)]
  simp only [htm]

/-- Claim C1 counterexample: the original unrestricted round-trip law fails
on the text `"a."` (a trailing Trailing-strategy punctuation).  The text is
non-empty and has no lone surrogate, `createHashtag` synthesizes the
unwrapped hashtag `"#a."`, but scanning it back yields a match whose
unescaped raw text is `"a"`, not `"a."`: the extractor's punctuation
lookahead drops the trailing `.` at end-of-input. -/
theorem claim_C1_cex :
    ([97, 46] : List Nat) ≠ [] ∧
    hasAnyLoneSurrogate [97, 46] = false ∧
    createHashtag [97, 46] = [0x23, 97, 46] ∧
    (findFirstHashtag (createHashtag [97, 46])).map
      (fun m => unescapeHashtagText m.rawText) = some [97] ∧
    ¬([97] : List Nat) = [97, 46] := by
  decide

/-- Claim C1 (amended): round-trip law with a punctuation side condition.
For every non-empty `text` with no lone surrogates such that, whenever the
text qualifies for the unwrapped form (`canBeUnwrapped`), it also contains no
None-strategy punctuation and every Trailing-strategy punctuation in it is
followed by a non-punctuation unit (`punctSafe`), `createHashtag text`
produces a hashtag string whose first scanned match has a `rawText` that
`unescapeHashtagText` maps back to `text` exactly.  This covers backslashes,
angle brackets, surrogate-paired emoji, and punctuation followed by
non-punctuation; texts synthesized in wrapped form need no punctuation
condition at all. -/
theorem claim_C1 : ∀ t : List Nat, t ≠ [] → hasAnyLoneSurrogate t = false →
    (canBeUnwrapped t = true → punctSafe t = true) →
    ∃ m : HashtagMatch, findFirstHashtag (createHashtag t) = some m ∧
      unescapeHashtagText m.rawText = t := by
  intro t hne hls hps
  by_cases hcb : canBeUnwrapped t = true
  · have hpsafe := hps hcb
    obtain ⟨E, hE⟩ := Option.isSome_iff_exists.mp (escUFirst_isSome t hcb)
    obtain ⟨hconsume, hunesc, hEne, hEhd⟩ := escUFirst_spec hne hcb hpsafe hE
    have hescval : escapeAsUnwrapped t = E := by
      unfold escapeAsUnwrapped
      rw [hE]
    have hcreate : createHashtag t = 0x23 :: E := by
      unfold createHashtag
      rw [hescval,
        if_neg (show ¬t.length = 0 by simp [hne]),
        if_neg (show ¬hasAnyLoneSurrogate t = true by simp [hls]),
        if_pos hcb,
        if_pos (show E.length > 0 from List.length_pos.mpr hEne)]
    have hok : (unescapeHashtagText E).length > 0 := by
      rw [hunesc]
      exact List.length_pos.mpr hne
    have hls2 : hasAnyLoneSurrogate (unescapeHashtagText E) = false := by
      rw [hunesc]
      exact hls
    exact ⟨_, by rw [hcreate]; exact scan_first_unwrapped hEne hEhd hconsume hok hls2,
      hunesc⟩
  · have hcbf : canBeUnwrapped t = false := by simpa using hcb
    obtain ⟨E, hE⟩ := Option.isSome_iff_exists.mp (escW_isSome t hls)
    have hunesc := escW_unescape hE
    have hEne : E ≠ [] := by
      intro hEnil
      subst hEnil
      exact hne hunesc.symm
    have hws := escW_consume t E hE []
    have hescval : escapeAsWrapped t = E := by
      unfold escapeAsWrapped
      rw [hE]
    have hcreate : createHashtag t = 0x23 :: 0x3c :: (E ++ [0x3e]) := by
      unfold createHashtag
      rw [hescval,
        if_neg (show ¬t.length = 0 by simp [hne]),
        if_neg (show ¬hasAnyLoneSurrogate t = true by simp [hls]),
        if_neg (show ¬canBeUnwrapped t = true by simp [hcbf]),
        if_pos (show E.length > 0 from List.length_pos.mpr hEne)]
    have hok : (unescapeHashtagText E).length > 0 := by
      rw [hunesc]
      exact List.length_pos.mpr hne
    have hls2 : hasAnyLoneSurrogate (unescapeHashtagText E) = false := by
      rw [hunesc]
      exact hls
    exact ⟨_, by rw [hcreate]; exact scan_first_wrapped hEne hws hok hls2, hunesc⟩

/-- Witness for claim C1 at the concrete text `"a.b"` (punctuation followed by
a non-punctuation unit, unwrapped form). -/
theorem claim_C1_witness :
    ([97, 46, 98] : List Nat) ≠ [] ∧
    hasAnyLoneSurrogate [97, 46, 98] = false ∧
    (canBeUnwrapped [97, 46, 98] = true → punctSafe [97, 46, 98] = true) ∧
    (∃ m : HashtagMatch, findFirstHashtag (createHashtag [97, 46, 98]) = some m ∧
      unescapeHashtagText m.rawText = [97, 46, 98]) :=
  ⟨by decide, by decide, by decide,
    claim_C1 [97, 46, 98] (by decide) (by decide) (by decide)⟩

end Hashtag
